import Mathlib

set_option maxHeartbeats 1000000

namespace Anniversary

/-- Status of a timeline photo entry, from the `PhotoStatus` union in `App.tsx`. -/
inductive PhotoStatus where
  | idle
  | pending
  | done
  | error
  | uploading
deriving DecidableEq, Repr

/-- One timeline entry, from the `Photo` interface in `App.tsx`.
Optional TypeScript properties are modelled as `Option` (absent = `none`). -/
structure Photo where
  id : String
  imageUrl : String
  date : String
  message : String
  status : PhotoStatus
  generatedUrl : Option String := none
  error : Option String := none
  localDataUrl : Option String := none
deriving DecidableEq, Repr

/-- The id-keyed merge discipline of `App.tsx`: map over the list, replace the
entry whose id matches, leave every other entry untouched. -/
def updateById (id : String) (f : Photo → Photo) (l : List Photo) : List Photo :=
  l.map (fun p => if p.id = id then f p else p)

/-- The id-keyed partial updates applied by the asynchronous completions and the
`handleUpdatePhoto` edit in `App.tsx`. -/
inductive Completion where
  | uploadSuccess (cloudUrl : String)
  | uploadFailure
  | setPending
  | genSuccess (generatedCloudUrl : String)
  | genFailure (errorMessage : String)
  | edit (date : Option String) (message : Option String)
deriving DecidableEq, Repr

/-- Entry transformer for each completion, read off the
`setPhotos(prev => prev.map(p => p.id === id ? ... : p))` call sites in `App.tsx`:
upload success and failure in `handleFileSelect`, the pending / done / error merges
in `handleGenerateImage`, and the field edit in `handleUpdatePhoto`. -/
def applyCompletion : Completion → Photo → Photo
  | .uploadSuccess url, p => { p with imageUrl := url, status := .idle, localDataUrl := none }
  | .uploadFailure, p => { p with status := .error, error := some "Upload failed." }
  | .setPending, p => { p with status := .pending }
  | .genSuccess url, p => { p with status := .done, generatedUrl := some url }
  | .genFailure msg, p => { p with status := .error, error := some msg }
  | .edit d m, p => { p with date := d.getD p.date, message := m.getD p.message }

/-- An id-keyed completion merge, as applied to the photo list in `App.tsx`. -/
def mergeCompletion (id : String) (c : Completion) (l : List Photo) : List Photo :=
  updateById id (applyCompletion c) l

/-- `handleDeletePhoto` from `App.tsx`: `photos.filter(p => p.id !== id)`. -/
def deletePhoto (id : String) (l : List Photo) : List Photo :=
  l.filter (fun p => p.id != id)

/-- The synchronous part of `handleGenerateImage` from `App.tsx`: look the entry up
by id; return without touching the state unless the entry exists and its
`imageUrl` is truthy (non-empty); otherwise mark the entry pending. -/
def handleGenerateStart (id : String) (l : List Photo) : List Photo :=
  match l.find? (fun p => p.id == id) with
  | none => l
  | some photo => if photo.imageUrl = "" then l else mergeCompletion id .setPending l

/-- The new entry appended by the image branch of `handleFileSelect` in `App.tsx`. -/
def newPhoto (id dataUrl : String) : Photo :=
  { id := id, imageUrl := "", date := "", message := "", status := .uploading,
    generatedUrl := none, error := none, localDataUrl := some dataUrl }

/-- The operations of `App.tsx` that mutate the photo list entry-wise
(wholesale timeline loads replace the list and are modelled separately). -/
inductive Op where
  | add (id dataUrl : String)
  | complete (id : String) (c : Completion)
  | generateStart (id : String)
  | delete (id : String)
deriving DecidableEq, Repr

/-- One step of the timeline state machine. -/
def stepOp (l : List Photo) : Op → List Photo
  | .add id dataUrl => l ++ [newPhoto id dataUrl]
  | .complete id c => mergeCompletion id c l
  | .generateStart id => handleGenerateStart id l
  | .delete id => deletePhoto id l

/-- Run a sequence of state-machine operations from the empty initial list. -/
def runOps (ops : List Op) : List Photo := ops.foldl stepOp []

/-- Whether the Generate button of `PolaroidCard.tsx` is rendered and enabled:
it is rendered only when `status === 'idle'` and carries
`disabled={!date || !message}`. -/
def generateButtonEnabled (p : Photo) : Bool :=
  p.status == .idle && p.date != "" && p.message != ""

lemma applyCompletion_id (c : Completion) (p : Photo) :
    (applyCompletion c p).id = p.id := by
  cases c <;> rfl

lemma mem_deletePhoto {id : String} {l : List Photo} {p : Photo}
    (hp : p ∈ deletePhoto id l) : p ∈ l ∧ p.id ≠ id := by
  have h := List.mem_filter.mp hp
  exact ⟨h.1, by simpa using h.2⟩

lemma mergeCompletion_eq_of_no_id (id : String) (c : Completion) (l : List Photo)
    (h : ∀ p ∈ l, p.id ≠ id) : mergeCompletion id c l = l := by
  induction l with
  | nil => rfl
  | cons a t ih =>
      have ha : a.id ≠ id := h a (by simp)
      have ht : ∀ p ∈ t, p.id ≠ id := fun p hp => h p (by simp [hp])
      simp [mergeCompletion, updateById, ha] at ih ⊢
      exact ih ht

lemma mergeCompletion_of_delete (id : String) (c : Completion) (l : List Photo) :
    mergeCompletion id c (deletePhoto id l) = deletePhoto id l :=
  mergeCompletion_eq_of_no_id id c _ (fun _p hp => (mem_deletePhoto hp).2)

/-- C4: deleting an id removes every entry carrying it; an id-keyed completion
merge for that id on any list that no longer contains the id is a no-op; hence
whatever the in-flight operation eventually delivers, the final list has no
entry with the deleted id. -/
theorem delete_then_merge_noop (id : String) (c : Completion) (l l2 : List Photo) :
    (∀ p ∈ deletePhoto id l, p.id ≠ id)
    ∧ ((∀ p ∈ l2, p.id ≠ id) → mergeCompletion id c l2 = l2)
    ∧ mergeCompletion id c (deletePhoto id l) = deletePhoto id l
    ∧ (∀ p ∈ mergeCompletion id c (deletePhoto id l), p.id ≠ id) := by
  refine ⟨fun p hp => (mem_deletePhoto hp).2,
    fun h => mergeCompletion_eq_of_no_id id c l2 h,
    mergeCompletion_of_delete id c l, ?_⟩
  intro p hp
  rw [mergeCompletion_of_delete id c l] at hp
  exact (mem_deletePhoto hp).2

/-- A concrete pending entry used by witnesses. -/
def photoX : Photo :=
  { id := "x", imageUrl := "u", date := "d", message := "m",
    status := PhotoStatus.pending }

/-- A concrete idle entry used by witnesses. -/
def photoY : Photo :=
  { id := "y", imageUrl := "v", date := "e", message := "n",
    status := PhotoStatus.idle }

/-- Witness for C4 at a concrete list: entry `"x"` is deleted while a generation
success for `"x"` is still in flight; the late merge is a no-op and the final
list has no entry `"x"`. -/
theorem delete_then_merge_noop_witness :
    (∀ p ∈ deletePhoto "x" [photoX, photoY], p.id ≠ "x")
    ∧ ((∀ p ∈ [photoY], p.id ≠ "x") →
        mergeCompletion "x" (Completion.genSuccess "g") [photoY] = [photoY])
    ∧ mergeCompletion "x" (Completion.genSuccess "g")
        (deletePhoto "x" [photoX, photoY]) = deletePhoto "x" [photoX, photoY]
    ∧ (∀ p ∈ mergeCompletion "x" (Completion.genSuccess "g")
          (deletePhoto "x" [photoX, photoY]), p.id ≠ "x") :=
  delete_then_merge_noop "x" (Completion.genSuccess "g") [photoX, photoY] [photoY]

/-- C8: two id-keyed completion merges targeting different ids commute. -/
theorem merge_commute (a b : String) (c1 c2 : Completion) (l : List Photo)
    (h : a ≠ b) :
    mergeCompletion a c1 (mergeCompletion b c2 l)
      = mergeCompletion b c2 (mergeCompletion a c1 l) := by
  unfold mergeCompletion updateById
  rw [List.map_map, List.map_map]
  refine List.map_congr_left ?_
  intro p _
  by_cases hb : p.id = b <;> by_cases ha : p.id = a
  · exact absurd (ha.symm.trans hb) h
  · simp [Function.comp, hb, ha, applyCompletion_id, h.symm]
  · simp [Function.comp, hb, ha, applyCompletion_id, h]
  · simp [Function.comp, hb, ha]

/-- A concrete pending entry with id `"a"` used by witnesses. -/
def photoA : Photo :=
  { id := "a", imageUrl := "u", date := "d", message := "m",
    status := PhotoStatus.pending }

/-- A concrete uploading entry with id `"b"` used by witnesses. -/
def photoB : Photo :=
  { id := "b", imageUrl := "", date := "e", message := "n",
    status := PhotoStatus.uploading, localDataUrl := some "blob" }

/-- Witness for C8: a generation success for `"a"` and an upload failure for
`"b"` applied in either order to a concrete two-entry list agree. -/
theorem merge_commute_witness :
    ("a" : String) ≠ "b"
    ∧ mergeCompletion "a" (Completion.genSuccess "g")
        (mergeCompletion "b" Completion.uploadFailure [photoA, photoB]) =
      mergeCompletion "b" Completion.uploadFailure
        (mergeCompletion "a" (Completion.genSuccess "g") [photoA, photoB]) :=
  ⟨by decide, merge_commute "a" "b" (Completion.genSuccess "g")
    Completion.uploadFailure [photoA, photoB] (by decide)⟩

/-- A concrete idle entry with a non-empty `imageUrl` and an empty message. -/
def photoEmptyMessage : Photo :=
  { id := "a", imageUrl := "u", date := "d", message := "",
    status := PhotoStatus.idle }

/-- Counterexample for C9: the entry has the empty message, yet invoking the
generate operation on its id does move it to `pending` — `handleGenerateImage`
checks only that the entry exists with a truthy `imageUrl`. -/
theorem generate_ignores_message_counterexample :
    photoEmptyMessage.message = ""
    ∧ (handleGenerateStart "a" [photoEmptyMessage]).map Photo.status
        = [PhotoStatus.pending] := by
  exact ⟨rfl, by decide⟩

/-- C9 (amended): the non-empty-message requirement is enforced only by the UI
Generate button, which is disabled whenever the message (or the date) is empty;
the generate operation itself does not consult the message: whenever the looked-up
entry has a truthy `imageUrl`, every entry with the requested id is moved to
`pending` regardless of its message. -/
theorem generate_message_guard_is_ui_only (p : Photo) (id : String)
    (l : List Photo) (photo : Photo) :
    (p.message = "" → generateButtonEnabled p = false)
    ∧ (l.find? (fun q => q.id == id) = some photo → photo.imageUrl ≠ "" →
        ∀ q ∈ handleGenerateStart id l, q.id = id → q.status = PhotoStatus.pending) := by
  constructor
  · intro hm
    simp [generateButtonEnabled, hm]
  · intro hfind hurl q hq hid
    simp only [handleGenerateStart, hfind, if_neg hurl] at hq
    unfold mergeCompletion updateById at hq
    obtain ⟨r, hr, hrq⟩ := List.mem_map.mp hq
    by_cases h : r.id = id
    · rw [if_pos h] at hrq
      rw [← hrq]
      rfl
    · rw [if_neg h] at hrq
      exact absurd (hrq ▸ hid) h

/-- Witness for C9 (amended) at the concrete empty-message entry: the button is
disabled, and the operation still marks the entry pending. -/
theorem generate_message_guard_is_ui_only_witness :
    (photoEmptyMessage.message = "" → generateButtonEnabled photoEmptyMessage = false)
    ∧ (([photoEmptyMessage].find? (fun q => q.id == "a") = some photoEmptyMessage →
        photoEmptyMessage.imageUrl ≠ "" →
        ∀ q ∈ handleGenerateStart "a" [photoEmptyMessage], q.id = "a" →
          q.status = PhotoStatus.pending))
    ∧ [photoEmptyMessage].find? (fun q => q.id == "a") = some photoEmptyMessage
    ∧ photoEmptyMessage.imageUrl ≠ "" :=
  ⟨(generate_message_guard_is_ui_only photoEmptyMessage "a"
      [photoEmptyMessage] photoEmptyMessage).1,
   (generate_message_guard_is_ui_only photoEmptyMessage "a"
      [photoEmptyMessage] photoEmptyMessage).2,
   by decide, by decide⟩

/-- C10: when the generate precondition fails — no entry with the id, or the
found entry has an empty `imageUrl` — `handleGenerateImage` returns before any
state update, leaving the photo list completely unchanged. -/
theorem generate_precondition_failure_no_update (id : String) (l : List Photo) :
    (l.find? (fun p => p.id == id) = none → handleGenerateStart id l = l)
    ∧ (∀ photo, l.find? (fun p => p.id == id) = some photo →
        photo.imageUrl = "" → handleGenerateStart id l = l) := by
  constructor
  · intro h
    unfold handleGenerateStart
    rw [h]
  · intro photo h hurl
    simp only [handleGenerateStart, h, if_pos hurl]

/-- A concrete uploading entry whose `imageUrl` is still empty. -/
def photoNoUrl : Photo :=
  { id := "c", imageUrl := "", date := "", message := "",
    status := PhotoStatus.uploading, localDataUrl := some "blob" }

/-- Witness for C10: generating a missing id `"zzz"` and generating the
entry `"c"` whose upload has not finished (`imageUrl` empty) both leave the
concrete list untouched. -/
theorem generate_precondition_failure_no_update_witness :
    ([photoNoUrl].find? (fun p => p.id == "zzz") = none →
      handleGenerateStart "zzz" [photoNoUrl] = [photoNoUrl])
    ∧ (∀ photo, [photoNoUrl].find? (fun p => p.id == "zzz") = some photo →
        photo.imageUrl = "" → handleGenerateStart "zzz" [photoNoUrl] = [photoNoUrl])
    ∧ ([photoNoUrl].find? (fun p => p.id == "c") = some photoNoUrl →
        photoNoUrl.imageUrl = "" → handleGenerateStart "c" [photoNoUrl] = [photoNoUrl])
    ∧ [photoNoUrl].find? (fun p => p.id == "zzz") = none
    ∧ [photoNoUrl].find? (fun p => p.id == "c") = some photoNoUrl
    ∧ photoNoUrl.imageUrl = "" :=
  ⟨(generate_precondition_failure_no_update "zzz" [photoNoUrl]).1,
   (generate_precondition_failure_no_update "zzz" [photoNoUrl]).2,
   fun h hu => (generate_precondition_failure_no_update "c" [photoNoUrl]).2 photoNoUrl h hu,
   by decide, by decide, by decide⟩

lemma stepOp_preserves_done_has_generated (l : List Photo) (op : Op)
    (h : ∀ p ∈ l, p.status = PhotoStatus.done → p.generatedUrl ≠ none) :
    ∀ p ∈ stepOp l op, p.status = PhotoStatus.done → p.generatedUrl ≠ none := by
  cases op with
  | add id dataUrl =>
      intro p hp hdone
      rcases List.mem_append.mp hp with hin | hin
      · exact h p hin hdone
      · simp only [List.mem_singleton] at hin
        subst hin
        simp [newPhoto] at hdone
  | complete id c =>
      intro p hp hdone
      simp only [stepOp, mergeCompletion, updateById, List.mem_map] at hp
      obtain ⟨r, hr, hrp⟩ := hp
      by_cases hid : r.id = id
      · rw [if_pos hid] at hrp
        subst hrp
        cases c with
        | uploadSuccess url => simp [applyCompletion] at hdone
        | uploadFailure => simp [applyCompletion] at hdone
        | setPending => simp [applyCompletion] at hdone
        | genSuccess url => simp [applyCompletion]
        | genFailure msg => simp [applyCompletion] at hdone
        | edit d m =>
            simp only [applyCompletion] at hdone ⊢
            exact h r hr hdone
      · rw [if_neg hid] at hrp
        subst hrp
        exact h r hr hdone
  | generateStart id =>
      intro p hp hdone
      cases hfind : l.find? (fun q => q.id == id) with
      | none =>
          simp only [stepOp, handleGenerateStart, hfind] at hp
          exact h p hp hdone
      | some photo =>
          by_cases hurl : photo.imageUrl = ""
          · simp only [stepOp, handleGenerateStart, hfind, if_pos hurl] at hp
            exact h p hp hdone
          · simp only [stepOp, handleGenerateStart, hfind, if_neg hurl,
              mergeCompletion, updateById, List.mem_map] at hp
            obtain ⟨r, hr, hrp⟩ := hp
            by_cases hid : r.id = id
            · rw [if_pos hid] at hrp
              subst hrp
              simp [applyCompletion] at hdone
            · rw [if_neg hid] at hrp
              subst hrp
              exact h r hr hdone
  | delete id =>
      intro p hp hdone
      exact h p (List.mem_of_mem_filter hp) hdone

/-- C1 (amended): along every run of the timeline state machine from the empty
list, `status == done` implies that `generatedUrl` is set — established by the
successful-generation merge and preserved by every other operation. The full
equivalence of the original claim fails (see the counterexample): the done-merge
does not clear a previous `error` detail, and re-triggering generation keeps
`generatedUrl` set while the status is no longer `done`. -/
theorem done_implies_generated (ops : List Op) :
    ∀ p ∈ runOps ops, p.status = PhotoStatus.done → p.generatedUrl ≠ none := by
  suffices hgen : ∀ (start : List Photo),
      (∀ p ∈ start, p.status = PhotoStatus.done → p.generatedUrl ≠ none) →
      ∀ p ∈ ops.foldl stepOp start, p.status = PhotoStatus.done →
        p.generatedUrl ≠ none by
    exact hgen [] (by intro p hp; simp at hp)
  induction ops with
  | nil => intro start hstart; simpa using hstart
  | cons op rest ih =>
      intro start hstart
      exact ih (stepOp start op) (stepOp_preserves_done_has_generated start op hstart)

/-- The operation sequence refuting the original C1 equivalence: create an
entry, finish its upload, generate with a failure, then regenerate with
success. The final entry is `done` with `generatedUrl` set but its stale
`error` detail still present. -/
def c1CexOps : List Op :=
  [Op.add "a" "blob",
   Op.complete "a" (Completion.uploadSuccess "u"),
   Op.generateStart "a",
   Op.complete "a" (Completion.genFailure "boom"),
   Op.generateStart "a",
   Op.complete "a" (Completion.genSuccess "g")]

/-- Counterexample for C1: after the successful-generation merge of `c1CexOps`
the claimed equivalence `status == done ⇔ generatedUrl set ∧ error absent`
fails — the entry is `done`, `generatedUrl` is set, yet `error` is still
`some "boom"` because the done-merge never clears it. -/
theorem done_iff_counterexample :
    ¬ (∀ p ∈ runOps c1CexOps,
        (p.status = PhotoStatus.done ↔ (p.generatedUrl ≠ none ∧ p.error = none))) := by
  decide

/-- Witness for C1 (amended): run the concrete sequence `c1CexOps`; its final
entry is `done` and indeed has `generatedUrl` set. -/
theorem done_implies_generated_witness :
    ∃ p, p ∈ runOps c1CexOps ∧ p.status = PhotoStatus.done ∧ p.generatedUrl ≠ none := by
  refine ⟨{ id := "a", imageUrl := "u", date := "", message := "",
            status := PhotoStatus.done, generatedUrl := some "g",
            error := some "boom", localDataUrl := none }, ?_, ?_, ?_⟩
  · decide
  · rfl
  · exact done_implies_generated c1CexOps _ (by decide) rfl

/-- Substring test on character lists, used to model JavaScript
`String.prototype.includes`. -/
def listContainsSub (n : List Char) : List Char → Bool
  | [] => n.isEmpty
  | c :: rest => n.isPrefixOf (c :: rest) || listContainsSub n rest

/-- `haystack.includes(needle)` from JavaScript. -/
def containsSub (haystack needle : String) : Bool :=
  listContainsSub needle.toList haystack.toList

/-- The internal-error test of `callGeminiWithRetry` in the Gemini service:
the message includes `"code":500`, `INTERNAL`, or `503`. -/
def isInternalError (msg : String) : Bool :=
  containsSub msg "\"code\":500" || containsSub msg "INTERNAL" || containsSub msg "503"

/-- Inline image payload of a model-response part (`inlineData`). -/
structure InlinePart where
  mimeType : String
  data : String
deriving DecidableEq, Repr

/-- One part of a model response: an optional inline image and optional text. -/
structure RespPart where
  inlineData : Option InlinePart := none
  text : Option String := none
deriving DecidableEq, Repr

/-- A model response: the parts of its first candidate and its aggregate text. -/
structure GenResponse where
  parts : List RespPart
  text : Option String := none
deriving DecidableEq, Repr

/-- Result of the retry wrapper: final result, the waits performed (ms), and
how many attempts were made. -/
structure RetryResult where
  result : Except String GenResponse
  delays : List Nat
  attemptsMade : Nat
deriving Repr

/-- The retry loop of `callGeminiWithRetry`: for `attempt` in `1..3`, return a
success immediately; on failure retry only when the message carries an
internal-error signature and `attempt < maxRetries`, after recording a wait of
`initialDelay * 2^(attempt-1)` ms; otherwise rethrow. The fuel-zero branch is
the dead `throw` after the loop in the source. -/
def retryLoop (outcomes : Nat → Except String GenResponse) :
    Nat → Nat → List Nat → RetryResult
  | _attempt, 0, delays =>
      ⟨Except.error "Gemini API call failed after all retries.", delays, 3⟩
  | attempt, fuel + 1, delays =>
      match outcomes attempt with
      | Except.ok r => ⟨Except.ok r, delays, attempt⟩
      | Except.error msg =>
          if isInternalError msg ∧ attempt < 3 then
            retryLoop outcomes (attempt + 1) fuel (delays ++ [1000 * 2 ^ (attempt - 1)])
          else ⟨Except.error msg, delays, attempt⟩

/-- `callGeminiWithRetry` from the Gemini service: `maxRetries = 3`,
`initialDelay = 1000`, attempts numbered from 1. The outcome of each attempt
is supplied by the oracle `outcomes`. -/
def callGeminiWithRetry (outcomes : Nat → Except String GenResponse) : RetryResult :=
  retryLoop outcomes 1 3 []

lemma retryLoop_succ (outcomes : Nat → Except String GenResponse)
    (attempt fuel : Nat) (delays : List Nat) :
    retryLoop outcomes attempt (fuel + 1) delays =
      match outcomes attempt with
      | Except.ok r => ⟨Except.ok r, delays, attempt⟩
      | Except.error msg =>
          if isInternalError msg ∧ attempt < 3 then
            retryLoop outcomes (attempt + 1) fuel (delays ++ [1000 * 2 ^ (attempt - 1)])
          else ⟨Except.error msg, delays, attempt⟩ := rfl

/-- Closed-form unfolding of the three-attempt retry loop. -/
lemma callGeminiWithRetry_eq (outcomes : Nat → Except String GenResponse) :
    callGeminiWithRetry outcomes =
      match outcomes 1 with
      | Except.ok r => ⟨Except.ok r, [], 1⟩
      | Except.error m1 =>
          if isInternalError m1 then
            match outcomes 2 with
            | Except.ok r => ⟨Except.ok r, [1000], 2⟩
            | Except.error m2 =>
                if isInternalError m2 then
                  match outcomes 3 with
                  | Except.ok r => ⟨Except.ok r, [1000, 2000], 3⟩
                  | Except.error m3 => ⟨Except.error m3, [1000, 2000], 3⟩
                else ⟨Except.error m2, [1000], 2⟩
          else ⟨Except.error m1, [], 1⟩ := by
  show retryLoop outcomes 1 (2 + 1) [] = _
  rw [retryLoop_succ]
  cases h1 : outcomes 1 with
  | ok r => rfl
  | error m1 =>
      dsimp only
      by_cases hi1 : isInternalError m1
      · rw [if_pos ⟨hi1, by omega⟩]
        show retryLoop outcomes 2 (1 + 1) [1000] = _
        rw [retryLoop_succ]
        cases h2 : outcomes 2 with
        | ok r => simp [hi1]
        | error m2 =>
            dsimp only
            by_cases hi2 : isInternalError m2
            · rw [if_pos ⟨hi2, by omega⟩]
              show retryLoop outcomes 3 (0 + 1) [1000, 2000] = _
              rw [retryLoop_succ]
              cases h3 : outcomes 3 with
              | ok r => simp [hi1, hi2]
              | error m3 =>
                  dsimp only
                  rw [if_neg (fun hc => absurd hc.2 (by omega))]
                  simp [hi1, hi2]
            · rw [if_neg (fun hc => hi2 hc.1)]
              simp [hi1, hi2]
      · rw [if_neg (fun hc => hi1 hc.1)]
        simp [hi1]

/-- C2: `callGeminiWithRetry` makes between 1 and 3 attempts; every attempt it
retried had failed with an internal/server-error signature and was followed by
a wait of exactly `1000 * 2^(n-1)` ms after failed attempt `n`; the final
result is exactly the outcome of the last attempt made, and when that last
attempt failed before attempt 3 its error was non-internal (any non-internal
failure propagates immediately); and a call failing with a 500-signature error
on the first two attempts and succeeding on the third returns that success
after waits of 1000 ms and 2000 ms. -/
theorem callGeminiWithRetry_spec (outcomes : Nat → Except String GenResponse) :
    (1 ≤ (callGeminiWithRetry outcomes).attemptsMade
      ∧ (callGeminiWithRetry outcomes).attemptsMade ≤ 3)
    ∧ (∀ n, 1 ≤ n → n < (callGeminiWithRetry outcomes).attemptsMade →
        ∃ m, outcomes n = Except.error m ∧ isInternalError m = true)
    ∧ (callGeminiWithRetry outcomes).delays
        = (List.range ((callGeminiWithRetry outcomes).attemptsMade - 1)).map
            (fun k => 1000 * 2 ^ k)
    ∧ (∀ resp, outcomes (callGeminiWithRetry outcomes).attemptsMade = Except.ok resp →
        (callGeminiWithRetry outcomes).result = Except.ok resp)
    ∧ (∀ m, outcomes (callGeminiWithRetry outcomes).attemptsMade = Except.error m →
        (callGeminiWithRetry outcomes).result = Except.error m
          ∧ ((callGeminiWithRetry outcomes).attemptsMade < 3 →
              isInternalError m = false))
    ∧ (∀ resp m1 m2, isInternalError m1 = true → isInternalError m2 = true →
        callGeminiWithRetry
          (fun n => if n = 1 then Except.error m1
                    else if n = 2 then Except.error m2 else Except.ok resp)
          = ⟨Except.ok resp, [1000, 2000], 3⟩) := by
  have hscenario : ∀ (resp : GenResponse) (m1 m2 : String),
      isInternalError m1 = true → isInternalError m2 = true →
      callGeminiWithRetry
        (fun n => if n = 1 then Except.error m1
                  else if n = 2 then Except.error m2 else Except.ok resp)
        = ⟨Except.ok resp, [1000, 2000], 3⟩ := by
    intro resp m1 m2 hm1 hm2
    rw [callGeminiWithRetry_eq]
    norm_num [hm1, hm2]
  rw [callGeminiWithRetry_eq]
  cases h1 : outcomes 1 with
  | ok r =>
      dsimp only
      refine ⟨by simp, ?_, by simp, ?_, ?_, hscenario⟩
      · intro n hn1 hn2
        simp at hn2
        omega
      · intro resp hresp
        try simp only at hresp ⊢
        rw [h1] at hresp
        exact hresp ▸ rfl
      · intro m hm
        try simp only at hm
        rw [h1] at hm
        exact absurd hm (by simp)
  | error m1 =>
      dsimp only
      by_cases hi1 : isInternalError m1
      · simp only [hi1, if_true]
        cases h2 : outcomes 2 with
        | ok r =>
            dsimp only
            refine ⟨by simp, ?_, by simp [List.range_succ], ?_, ?_, hscenario⟩
            · intro n hn1 hn2
              try simp only at hn2
              have : n = 1 := by omega
              exact this ▸ ⟨m1, h1, hi1⟩
            · intro resp hresp
              try simp only at hresp ⊢
              rw [h2] at hresp
              exact hresp ▸ rfl
            · intro m hm
              try simp only at hm
              rw [h2] at hm
              exact absurd hm (by simp)
        | error m2 =>
            dsimp only
            by_cases hi2 : isInternalError m2
            · simp only [hi2, if_true]
              cases h3 : outcomes 3 with
              | ok r =>
                  dsimp only
                  refine ⟨by simp, ?_, ?_, ?_, ?_, hscenario⟩
                  · intro n hn1 hn2
                    try simp only at hn2
                    have hn : n = 1 ∨ n = 2 := by omega
                    rcases hn with hn | hn
                    · exact hn ▸ ⟨m1, h1, hi1⟩
                    · exact hn ▸ ⟨m2, h2, hi2⟩
                  · simp [List.range_succ]
                  · intro resp hresp
                    try simp only at hresp ⊢
                    rw [h3] at hresp
                    exact hresp ▸ rfl
                  · intro m hm
                    try simp only at hm
                    rw [h3] at hm
                    exact absurd hm (by simp)
              | error m3 =>
                  dsimp only
                  refine ⟨by simp, ?_, ?_, ?_, ?_, hscenario⟩
                  · intro n hn1 hn2
                    try simp only at hn2
                    have hn : n = 1 ∨ n = 2 := by omega
                    rcases hn with hn | hn
                    · exact hn ▸ ⟨m1, h1, hi1⟩
                    · exact hn ▸ ⟨m2, h2, hi2⟩
                  · simp [List.range_succ]
                  · intro resp hresp
                    try simp only at hresp ⊢
                    rw [h3] at hresp
                    exact absurd hresp (by simp)
                  · intro m hm
                    try simp only at hm ⊢
                    rw [h3] at hm
                    cases hm
                    exact ⟨rfl, by omega⟩
            · rw [if_neg hi2]
              refine ⟨by simp, ?_, by simp [List.range_succ], ?_, ?_, hscenario⟩
              · intro n hn1 hn2
                try simp only at hn2
                have : n = 1 := by omega
                exact this ▸ ⟨m1, h1, hi1⟩
              · intro resp hresp
                try simp only at hresp ⊢
                rw [h2] at hresp
                exact absurd hresp (by simp)
              · intro m hm
                try simp only at hm ⊢
                rw [h2] at hm
                cases hm
                refine ⟨rfl, fun _ => ?_⟩
                exact Bool.eq_false_iff.mpr hi2
      · rw [if_neg hi1]
        refine ⟨by simp, ?_, by simp, ?_, ?_, hscenario⟩
        · intro n hn1 hn2
          try simp only at hn2
          omega
        · intro resp hresp
          try simp only at hresp ⊢
          rw [h1] at hresp
          exact absurd hresp (by simp)
        · intro m hm
          try simp only at hm ⊢
          rw [h1] at hm
          cases hm
          refine ⟨rfl, fun _ => ?_⟩
          exact Bool.eq_false_iff.mpr hi1

/-- A concrete successful model response used by witnesses. -/
def respOkW : GenResponse :=
  { parts := [{ inlineData := some { mimeType := "image/png", data := "QUJD" } }],
    text := none }

/-- Witness for C2 at the concrete scenario: two internal failures (a
`"code":500` signature and a `503` signature) followed by a success yield that
success after waits of 1000 ms and 2000 ms, using three attempts. -/
theorem callGeminiWithRetry_spec_witness :
    isInternalError "got \"code\":500 from server" = true
    ∧ isInternalError "503 Service Unavailable" = true
    ∧ callGeminiWithRetry
        (fun n => if n = 1 then Except.error "got \"code\":500 from server"
                  else if n = 2 then Except.error "503 Service Unavailable"
                  else Except.ok respOkW)
        = ⟨Except.ok respOkW, [1000, 2000], 3⟩ :=
  ⟨by decide, by decide,
   (callGeminiWithRetry_spec (fun _ => Except.ok respOkW)).2.2.2.2.2 respOkW
     "got \"code\":500 from server" "503 Service Unavailable"
     (by decide) (by decide)⟩

/-- The error text built by `processGeminiResponse` when the model answered
with words instead of an image. -/
def textInsteadOfImageMsg (t : String) : String :=
  "The AI model responded with text instead of an image: \"" ++ t ++ "\""

/-- `processGeminiResponse` from the Gemini service: extract the first
image-bearing part and build a data URL from it; if there is none, fail with
an error embedding the response text (or a fallback when the text is falsy). -/
def processGeminiResponse (r : GenResponse) : Except String String :=
  match r.parts.findSome? (fun part => part.inlineData) with
  | some d => Except.ok ("data:" ++ d.mimeType ++ ";base64," ++ d.data)
  | none =>
      Except.error (textInsteadOfImageMsg
        (match r.text with
         | some s => if s = "" then "No text response received." else s
         | none => "No text response received."))

/-- The wrapper applied by `generateTimelineImage`'s catch-all:
`The AI model failed to generate an image. Details: ...`. -/
def wrapGenError (m : String) : String :=
  "The AI model failed to generate an image. Details: " ++ m

/-- The call-and-extract phase of `generateTimelineImage`: run the retrying
model call, then extract the image; any failure of either step is rethrown
wrapped by `wrapGenError`. (The preceding source-image fetch is an external
collaborator and is assumed to have succeeded.) -/
def generateTimelineImageModel
    (outcomes : Nat → Except String GenResponse) : Except String String :=
  match (callGeminiWithRetry outcomes).result with
  | Except.error m => Except.error (wrapGenError m)
  | Except.ok resp =>
      match processGeminiResponse resp with
      | Except.ok u => Except.ok u
      | Except.error m => Except.error (wrapGenError m)

lemma findSome?_inlineData_none (parts : List RespPart)
    (h : ∀ p ∈ parts, p.inlineData = none) :
    parts.findSome? (fun part => part.inlineData) = none := by
  induction parts with
  | nil => rfl
  | cons a rest ih =>
      have ha : a.inlineData = none := h a (by simp)
      simp only [List.findSome?, ha]
      exact ih (fun p hp => h p (by simp [hp]))

/-- C7: when the model call succeeds on the first attempt but the response has
no image-bearing part, the operation fails at once — one attempt, no waits —
and the resulting failure merge leaves the entry in status `error` with the
model's text embedded in the error detail. -/
theorem text_only_response_fails_without_retry
    (resp : GenResponse) (t : String) (id : String) (l : List Photo)
    (htext : resp.text = some t) (hne : t ≠ "")
    (hnoimg : ∀ part ∈ resp.parts, part.inlineData = none) :
    (callGeminiWithRetry (fun _ => Except.ok resp)).attemptsMade = 1
    ∧ (callGeminiWithRetry (fun _ => Except.ok resp)).delays = []
    ∧ generateTimelineImageModel (fun _ => Except.ok resp)
        = Except.error (wrapGenError (textInsteadOfImageMsg t))
    ∧ (∃ pre post, wrapGenError (textInsteadOfImageMsg t) = pre ++ t ++ post)
    ∧ (∀ p ∈ mergeCompletion id
          (Completion.genFailure (wrapGenError (textInsteadOfImageMsg t))) l,
        p.id = id → p.status = PhotoStatus.error
          ∧ p.error = some (wrapGenError (textInsteadOfImageMsg t))) := by
  have hcc : callGeminiWithRetry (fun _ => Except.ok resp)
      = ⟨Except.ok resp, [], 1⟩ := by
    rw [callGeminiWithRetry_eq]
  have hproc : processGeminiResponse resp
      = Except.error (textInsteadOfImageMsg t) := by
    simp [processGeminiResponse, findSome?_inlineData_none resp.parts hnoimg,
      htext, hne]
  refine ⟨by rw [hcc], by rw [hcc], ?_, ?_, ?_⟩
  · simp [generateTimelineImageModel, hcc, hproc]
  · refine ⟨"The AI model failed to generate an image. Details: "
        ++ "The AI model responded with text instead of an image: \"", "\"", ?_⟩
    simp [wrapGenError, textInsteadOfImageMsg, String.append_assoc]
    rw [← String.append_assoc]
    congr 1
  · intro p hp hid
    simp only [mergeCompletion, updateById, List.mem_map] at hp
    obtain ⟨r, _hr, hrp⟩ := hp
    by_cases h : r.id = id
    · rw [if_pos h] at hrp
      subst hrp
      exact ⟨rfl, rfl⟩
    · rw [if_neg h] at hrp
      subst hrp
      exact absurd hid h

/-- A concrete text-only model response used by witnesses. -/
def respTextOnly : GenResponse :=
  { parts := [{ inlineData := none, text := some "just words" }],
    text := some "just words" }

/-- Witness for C7 at the concrete text-only response `respTextOnly`. -/
theorem text_only_response_fails_without_retry_witness :
    respTextOnly.text = some "just words"
    ∧ "just words" ≠ ""
    ∧ (∀ part ∈ respTextOnly.parts, part.inlineData = none)
    ∧ ((callGeminiWithRetry (fun _ => Except.ok respTextOnly)).attemptsMade = 1
      ∧ (callGeminiWithRetry (fun _ => Except.ok respTextOnly)).delays = []
      ∧ generateTimelineImageModel (fun _ => Except.ok respTextOnly)
          = Except.error (wrapGenError (textInsteadOfImageMsg "just words"))
      ∧ (∃ pre post, wrapGenError (textInsteadOfImageMsg "just words")
            = pre ++ "just words" ++ post)
      ∧ (∀ p ∈ mergeCompletion "a"
            (Completion.genFailure
              (wrapGenError (textInsteadOfImageMsg "just words"))) [photoA],
          p.id = "a" → p.status = PhotoStatus.error
            ∧ p.error = some (wrapGenError (textInsteadOfImageMsg "just words")))) :=
  ⟨rfl, by decide, by decide,
   text_only_response_fails_without_retry respTextOnly "just words" "a" [photoA]
     rfl (by decide) (by decide)⟩

/-- JSON values as handled by `JSON.parse` / `JSON.stringify` (numbers are
restricted to integers; no behaviour settled here involves fractional
numbers). -/
inductive Json where
  | null
  | bool (b : Bool)
  | str (s : String)
  | num (n : Int)
  | arr (items : List Json)
  | obj (members : List (String × Json))

/-- First-occurrence member lookup (objects built by `JSON.parse` have unique
keys). -/
def lookupMember : List (String × Json) → String → Option Json
  | [], _ => none
  | (k, v) :: rest, key => if k = key then some v else lookupMember rest key

/-- JavaScript property access `o.key` on a JSON value: fields exist only on
objects; anything else yields `undefined` (`none`). -/
def Json.getField : Json → String → Option Json
  | .obj ms, key => lookupMember ms key
  | _, _ => none

/-- JavaScript truthiness of a JSON value. -/
def jsonTruthy : Json → Bool
  | .null => false
  | .bool b => b
  | .str s => s != ""
  | .num n => n != 0
  | .arr _ => true
  | .obj _ => true

/-- Truthiness of `o.key`; an absent field is `undefined`, hence falsy. -/
def fieldTruthy (j : Json) (key : String) : Bool :=
  match j.getField key with
  | some v => jsonTruthy v
  | none => false

/-- The element check of `handleFileSelect`'s JSON branch:
`p.id && (p.imageUrl || p.dataUrl)`. -/
def validTimelinePhoto (p : Json) : Bool :=
  fieldTruthy p "id" && (fieldTruthy p "imageUrl" || fieldTruthy p "dataUrl")

/-- JavaScript spread-with-override `{ ...p, key: v }`: the value is replaced
in place when the key exists, appended otherwise. -/
def setMember : List (String × Json) → String → Json → List (String × Json)
  | [], key, v => [(key, v)]
  | (k, w) :: rest, key, v =>
      if k = key then (k, v) :: rest else (k, w) :: setMember rest key v

/-- The migration `{ ...p, imageUrl: p.imageUrl || p.dataUrl || '' }` of
`handleFileSelect`. -/
def migrateTimelinePhoto (p : Json) : Json :=
  let newUrl :=
    if fieldTruthy p "imageUrl" then (p.getField "imageUrl").getD (Json.str "")
    else if fieldTruthy p "dataUrl" then (p.getField "dataUrl").getD (Json.str "")
    else Json.str ""
  match p with
  | .obj ms => .obj (setMember ms "imageUrl" newUrl)
  | other => other

/-- The JSON branch of `handleFileSelect`: accept an object carrying a `photos`
array, else a bare array; require every element to pass `validTimelinePhoto`;
migrate the legacy `dataUrl` into `imageUrl`; reject everything else with the
source's error messages. -/
def importTimeline (parsed : Json) : Except String (List Json) :=
  match
    (match parsed.getField "photos" with
     | some (Json.arr ps) => some ps
     | _ =>
        match parsed with
        | Json.arr ps => some ps
        | _ => none) with
  | none => Except.error "JSON file is not in a recognized timeline format."
  | some photosToLoad =>
      if photosToLoad.all validTimelinePhoto then
        Except.ok (photosToLoad.map migrateTimelinePhoto)
      else Except.error "Invalid photo data within timeline file."

/-- The state effect of the JSON branch: on success the loaded timeline
replaces the current list; on failure only an alert is shown and the current
list is untouched. -/
def applyImportFile (parsed : Json) (current : List Json) : List Json :=
  match importTimeline parsed with
  | Except.ok ps => ps
  | Except.error _ => current

/-- The legacy-migration scenario file
`{ "photos": [{"id":"a","dataUrl":"http://x/y.png"}] }`. -/
def legacyImportScenario : Json :=
  Json.obj [("photos", Json.arr
    [Json.obj [("id", Json.str "a"), ("dataUrl", Json.str "http://x/y.png")]])]

/-- C5: file import accepts exactly a bare array or an object whose `photos`
field is an array; it succeeds exactly when every element carries a truthy
`id` and a truthy `imageUrl` or legacy `dataUrl`; the legacy scenario migrates
`dataUrl` into `imageUrl`; and a failed import leaves the current list
unchanged (all-or-nothing). -/
theorem import_validation_spec (j : Json) (ps : List Json)
    (fields : List (String × Json)) (old : List Json) :
    (importTimeline (Json.arr ps)
        = if ps.all validTimelinePhoto then Except.ok (ps.map migrateTimelinePhoto)
          else Except.error "Invalid photo data within timeline file.")
    ∧ ((Json.obj fields).getField "photos" = some (Json.arr ps) →
        importTimeline (Json.obj fields)
          = if ps.all validTimelinePhoto then Except.ok (ps.map migrateTimelinePhoto)
            else Except.error "Invalid photo data within timeline file.")
    ∧ ((∀ qs, j.getField "photos" ≠ some (Json.arr qs)) → (∀ qs, j ≠ Json.arr qs) →
        importTimeline j = Except.error "JSON file is not in a recognized timeline format.")
    ∧ (∀ e, importTimeline j = Except.error e → applyImportFile j old = old)
    ∧ importTimeline legacyImportScenario
        = Except.ok [Json.obj [("id", Json.str "a"),
            ("dataUrl", Json.str "http://x/y.png"),
            ("imageUrl", Json.str "http://x/y.png")]]
    ∧ (applyImportFile legacyImportScenario old).head?.bind
        (fun p => p.getField "imageUrl") = some (Json.str "http://x/y.png") := by
  refine ⟨rfl, ?_, ?_, ?_, rfl, rfl⟩
  · intro h
    simp only [importTimeline, h]
  · intro hnophotos hnotarr
    cases j with
    | arr qs => exact absurd rfl (hnotarr qs)
    | null => rfl
    | bool b => rfl
    | str s => rfl
    | num n => rfl
    | obj ms =>
        unfold importTimeline
        cases hg : Json.getField (Json.obj ms) "photos" with
        | none => rfl
        | some v =>
            cases v with
            | arr qs => exact absurd hg (hnophotos qs)
            | null => rfl
            | bool b => rfl
            | str s => rfl
            | num n => rfl
            | obj ns => rfl
  · intro e he
    unfold applyImportFile
    rw [he]

/-- Witness for C5: the object-with-`photos` branch at the legacy scenario and
an invalid import (`Json.null`) that leaves the current one-element list
unchanged. -/
theorem import_validation_spec_witness :
    (Json.obj [("photos", Json.arr
        [Json.obj [("id", Json.str "a"), ("dataUrl", Json.str "http://x/y.png")]])]).getField
        "photos" = some (Json.arr
        [Json.obj [("id", Json.str "a"), ("dataUrl", Json.str "http://x/y.png")]])
    ∧ (∀ qs, Json.null.getField "photos" ≠ some (Json.arr qs))
    ∧ (∀ qs, Json.null ≠ Json.arr qs)
    ∧ importTimeline Json.null
        = Except.error "JSON file is not in a recognized timeline format."
    ∧ applyImportFile Json.null [Json.str "keep"] = [Json.str "keep"] := by
  have hnophotos : ∀ qs, Json.null.getField "photos" ≠ some (Json.arr qs) :=
    fun _qs h => Option.noConfusion h
  have hnotarr : ∀ qs, Json.null ≠ Json.arr qs :=
    fun _qs h => Json.noConfusion h
  refine ⟨rfl, hnophotos, hnotarr, ?_, ?_⟩
  · exact (import_validation_spec Json.null [] [] [Json.str "keep"]).2.2.1
      hnophotos hnotarr
  · exact (import_validation_spec Json.null [] [] [Json.str "keep"]).2.2.2.1
      "JSON file is not in a recognized timeline format."
      ((import_validation_spec Json.null [] [] [Json.str "keep"]).2.2.1
        hnophotos hnotarr)

/-- The double-quote character. -/
def qc : Char := Char.ofNat 34

/-- The opening brace of a JSON object. -/
def obraceC : Char := Char.ofNat 123

/-- The closing brace of a JSON object. -/
def cbraceC : Char := Char.ofNat 125

/-- Lower-case hexadecimal digit for a value below 16. -/
def hexDigitChar (n : Nat) : Char :=
  "0123456789abcdef".toList.getD n '0'

/-- Value of a hexadecimal digit as accepted by `JSON.parse`. -/
def hexDigitVal (c : Char) : Option Nat :=
  if '0' ≤ c ∧ c ≤ '9' then some (c.toNat - 48)
  else if 'a' ≤ c ∧ c ≤ 'f' then some (c.toNat - 87)
  else if 'A' ≤ c ∧ c ≤ 'F' then some (c.toNat - 55)
  else none

/-- The escape `JSON.stringify` applies to one character: quote and backslash
are escaped, the five short control escapes are used, any other control
character becomes `\u00XX`, and everything else is copied verbatim. -/
def escapeChar (c : Char) : List Char :=
  if c = qc then ['\\', qc]
  else if c = '\\' then ['\\', '\\']
  else if c = Char.ofNat 8 then ['\\', 'b']
  else if c = Char.ofNat 9 then ['\\', 't']
  else if c = Char.ofNat 10 then ['\\', 'n']
  else if c = Char.ofNat 12 then ['\\', 'f']
  else if c = Char.ofNat 13 then ['\\', 'r']
  else if c.toNat < 32 then
    ['\\', 'u', '0', '0', hexDigitChar (c.toNat / 16), hexDigitChar (c.toNat % 16)]
  else [c]

/-- String-body escaping, character by character. -/
def escapeList : List Char → List Char
  | [] => []
  | c :: rest => escapeChar c ++ escapeList rest

/-- `JSON.stringify` of a string value: quote, escaped body, quote. -/
def renderStr (s : String) : List Char :=
  qc :: (escapeList s.toList ++ [qc])

/-- One-character escapes accepted by `JSON.parse` after a backslash. -/
def unescapeChar (c : Char) : Option Char :=
  if c = qc then some qc
  else if c = '\\' then some '\\'
  else if c = '/' then some '/'
  else if c = 'b' then some (Char.ofNat 8)
  else if c = 't' then some (Char.ofNat 9)
  else if c = 'n' then some (Char.ofNat 10)
  else if c = 'f' then some (Char.ofNat 12)
  else if c = 'r' then some (Char.ofNat 13)
  else none

/-- `JSON.parse` of a string body after the opening quote: returns the decoded
characters and what follows the closing quote. -/
def parseStringBody : List Char → Option (List Char × List Char)
  | [] => none
  | c :: rest =>
    if c = qc then some ([], rest)
    else if c = '\\' then
      match rest with
      | [] => none
      | e :: rest2 =>
        if e = 'u' then
          match rest2 with
          | h1 :: h2 :: h3 :: h4 :: rest3 =>
            match hexDigitVal h1, hexDigitVal h2, hexDigitVal h3, hexDigitVal h4 with
            | some d1, some d2, some d3, some d4 =>
              if Nat.isValidChar (((d1 * 16 + d2) * 16 + d3) * 16 + d4) then
                match parseStringBody rest3 with
                | some (s, r) =>
                    some (Char.ofNat (((d1 * 16 + d2) * 16 + d3) * 16 + d4) :: s, r)
                | none => none
              else none
            | _, _, _, _ => none
          | _ => none
        else
          match unescapeChar e with
          | some ce =>
            match parseStringBody rest2 with
            | some (s, r) => some (ce :: s, r)
            | none => none
          | none => none
    else
      match parseStringBody rest with
      | some (s, r) => some (c :: s, r)
      | none => none
termination_by l => l.length

lemma hexVal_hexChar : ∀ n, n < 16 → hexDigitVal (hexDigitChar n) = some n := by
  decide

lemma psb_quote (rest : List Char) : parseStringBody (qc :: rest) = some ([], rest) := by
  rw [parseStringBody.eq_def]
  simp

lemma psb_plain (c : Char) (h1 : ¬c = qc) (h2 : ¬c = '\\') (rest : List Char) :
    parseStringBody (c :: rest) =
      match parseStringBody rest with
      | some (s, r) => some (c :: s, r)
      | none => none := by
  rw [parseStringBody.eq_def]
  simp [h1, h2]

lemma psb_escape (e ce : Char) (he : unescapeChar e = some ce) (hu : ¬e = 'u')
    (rest : List Char) :
    parseStringBody ('\\' :: e :: rest) =
      match parseStringBody rest with
      | some (s, r) => some (ce :: s, r)
      | none => none := by
  rw [parseStringBody.eq_def]
  simp [he, hu, show ¬('\\' : Char) = qc from by decide]

lemma psb_hex (h1 h2 h3 h4 : Char) (d1 d2 d3 d4 : Nat)
    (e1 : hexDigitVal h1 = some d1) (e2 : hexDigitVal h2 = some d2)
    (e3 : hexDigitVal h3 = some d3) (e4 : hexDigitVal h4 = some d4)
    (hv : Nat.isValidChar (((d1 * 16 + d2) * 16 + d3) * 16 + d4))
    (rest : List Char) :
    parseStringBody ('\\' :: 'u' :: h1 :: h2 :: h3 :: h4 :: rest) =
      match parseStringBody rest with
      | some (s, r) => some (Char.ofNat (((d1 * 16 + d2) * 16 + d3) * 16 + d4) :: s, r)
      | none => none := by
  rw [parseStringBody.eq_def]
  simp [e1, e2, e3, e4, hv, show ¬('\\' : Char) = qc from by decide]

lemma escapeChar_quote : escapeChar qc = ['\\', qc] := by decide

lemma escapeChar_backslash : escapeChar '\\' = ['\\', '\\'] := by decide

lemma escapeChar_bsp : escapeChar (Char.ofNat 8) = ['\\', 'b'] := by decide

lemma escapeChar_tab : escapeChar (Char.ofNat 9) = ['\\', 't'] := by decide

lemma escapeChar_nl : escapeChar (Char.ofNat 10) = ['\\', 'n'] := by decide

lemma escapeChar_ff : escapeChar (Char.ofNat 12) = ['\\', 'f'] := by decide

lemma escapeChar_cr : escapeChar (Char.ofNat 13) = ['\\', 'r'] := by decide

lemma escapeChar_ctrl (c : Char) (n1 : ¬c = qc) (n2 : ¬c = '\\')
    (n3 : ¬c = Char.ofNat 8) (n4 : ¬c = Char.ofNat 9) (n5 : ¬c = Char.ofNat 10)
    (n6 : ¬c = Char.ofNat 12) (n7 : ¬c = Char.ofNat 13) (n8 : c.toNat < 32) :
    escapeChar c =
      ['\\', 'u', '0', '0', hexDigitChar (c.toNat / 16), hexDigitChar (c.toNat % 16)] := by
  simp [escapeChar, n1, n2, n3, n4, n5, n6, n7, n8]

lemma escapeChar_plain (c : Char) (n1 : ¬c = qc) (n2 : ¬c = '\\')
    (n3 : ¬c = Char.ofNat 8) (n4 : ¬c = Char.ofNat 9) (n5 : ¬c = Char.ofNat 10)
    (n6 : ¬c = Char.ofNat 12) (n7 : ¬c = Char.ofNat 13) (n8 : ¬c.toNat < 32) :
    escapeChar c = [c] := by
  simp [escapeChar, n1, n2, n3, n4, n5, n6, n7, n8]

lemma parseStringBody_escape (cs rest : List Char) :
    parseStringBody (escapeList cs ++ (qc :: rest)) = some (cs, rest) := by
  induction cs with
  | nil =>
      simp only [escapeList, List.nil_append]
      exact psb_quote rest
  | cons c cs ih =>
      simp only [escapeList, List.append_assoc]
      by_cases h1 : c = qc
      · subst h1
        rw [escapeChar_quote]
        simp only [List.cons_append, List.nil_append]
        rw [psb_escape qc qc (by decide) (by decide), ih]
      · by_cases h2 : c = '\\'
        · subst h2
          rw [escapeChar_backslash]
          simp only [List.cons_append, List.nil_append]
          rw [psb_escape '\\' '\\' (by decide) (by decide), ih]
        · by_cases h3 : c = Char.ofNat 8
          · subst h3
            rw [escapeChar_bsp]
            simp only [List.cons_append, List.nil_append]
            rw [psb_escape 'b' (Char.ofNat 8) (by decide) (by decide), ih]
          · by_cases h4 : c = Char.ofNat 9
            · subst h4
              rw [escapeChar_tab]
              simp only [List.cons_append, List.nil_append]
              rw [psb_escape 't' (Char.ofNat 9) (by decide) (by decide), ih]
            · by_cases h5 : c = Char.ofNat 10
              · subst h5
                rw [escapeChar_nl]
                simp only [List.cons_append, List.nil_append]
                rw [psb_escape 'n' (Char.ofNat 10) (by decide) (by decide), ih]
              · by_cases h6 : c = Char.ofNat 12
                · subst h6
                  rw [escapeChar_ff]
                  simp only [List.cons_append, List.nil_append]
                  rw [psb_escape 'f' (Char.ofNat 12) (by decide) (by decide), ih]
                · by_cases h7 : c = Char.ofNat 13
                  · subst h7
                    rw [escapeChar_cr]
                    simp only [List.cons_append, List.nil_append]
                    rw [psb_escape 'r' (Char.ofNat 13) (by decide) (by decide), ih]
                  · by_cases h8 : c.toNat < 32
                    · rw [escapeChar_ctrl c h1 h2 h3 h4 h5 h6 h7 h8]
                      simp only [List.cons_append, List.nil_append]
                      have hdiv : c.toNat / 16 < 16 := by omega
                      have hmod : c.toNat % 16 < 16 := by omega
                      have hsum : ((0 * 16 + 0) * 16 + c.toNat / 16) * 16
                          + c.toNat % 16 = c.toNat := by omega
                      have hv : Nat.isValidChar
                          (((0 * 16 + 0) * 16 + c.toNat / 16) * 16 + c.toNat % 16) := by
                        rw [hsum]
                        exact Or.inl (by omega)
                      rw [psb_hex '0' '0' (hexDigitChar (c.toNat / 16))
                        (hexDigitChar (c.toNat % 16)) 0 0 (c.toNat / 16) (c.toNat % 16)
                        (by decide) (by decide) (hexVal_hexChar _ hdiv)
                        (hexVal_hexChar _ hmod) hv, ih]
                      simp [hsum]
                      rw [show c.toNat / 16 * 16 + c.toNat % 16 = c.toNat from by omega]
                      exact Char.ofNat_toNat c
                    · rw [escapeChar_plain c h1 h2 h3 h4 h5 h6 h7 h8]
                      simp only [List.cons_append, List.nil_append]
                      rw [psb_plain c h1 h2, ih]

/-- JSON insignificant whitespace. -/
def isJsonWs (c : Char) : Bool :=
  c == ' ' || c == Char.ofNat 9 || c == Char.ofNat 10 || c == Char.ofNat 13

/-- Skip insignificant whitespace. -/
def skipWs : List Char → List Char
  | [] => []
  | c :: rest => if isJsonWs c then skipWs rest else c :: rest

/-- Take a maximal run of decimal digits. -/
def takeDigits : List Char → List Char × List Char
  | [] => ([], [])
  | c :: rest =>
      if c.isDigit then
        let p := takeDigits rest
        (c :: p.1, p.2)
      else ([], c :: rest)

/-- Decimal value of a digit run. -/
def digitsToNat (ds : List Char) : Nat :=
  ds.foldl (fun acc c => acc * 10 + (c.toNat - 48)) 0

/-- Remove every member with the given key. -/
def removeMember : List (String × Json) → String → List (String × Json)
  | [], _ => []
  | (k1, v1) :: rest, key =>
      if k1 = key then removeMember rest key
      else (k1, v1) :: removeMember rest key

/-- Prepend a member the way JavaScript object construction resolves duplicate
keys: first position, last value. -/
def insertMemberJs (k : String) (v : Json) (ms : List (String × Json)) :
    List (String × Json) :=
  match lookupMember ms k with
  | some w => (k, w) :: removeMember ms k
  | none => (k, v) :: ms

mutual

/-- `JSON.parse` of one value (fuelled; `Json.parse` supplies ample fuel). -/
def jsonParseVal : Nat → List Char → Option (Json × List Char)
  | 0, _ => none
  | fuel + 1, l =>
    match skipWs l with
    | [] => none
    | c :: rest =>
      if c = qc then
        match parseStringBody rest with
        | some (s, r) => some (Json.str (String.mk s), r)
        | none => none
      else if c = '[' then jsonParseItems fuel rest
      else if c = obraceC then jsonParseMembers fuel rest
      else if c = 't' then
        match rest with
        | 'r' :: 'u' :: 'e' :: r => some (Json.bool true, r)
        | _ => none
      else if c = 'f' then
        match rest with
        | 'a' :: 'l' :: 's' :: 'e' :: r => some (Json.bool false, r)
        | _ => none
      else if c = 'n' then
        match rest with
        | 'u' :: 'l' :: 'l' :: r => some (Json.null, r)
        | _ => none
      else if c = '-' then
        match takeDigits rest with
        | ([], _) => none
        | (ds, r) => some (Json.num (-(digitsToNat ds : Int)), r)
      else if c.isDigit then
        match takeDigits (c :: rest) with
        | (ds, r) => some (Json.num (digitsToNat ds), r)
      else none

/-- Array items after the opening bracket. -/
def jsonParseItems : Nat → List Char → Option (Json × List Char)
  | 0, _ => none
  | fuel + 1, l =>
    match skipWs l with
    | [] => none
    | c :: r =>
      if c = ']' then some (Json.arr [], r)
      else
        match jsonParseVal fuel (c :: r) with
        | none => none
        | some (v, r1) =>
          match skipWs r1 with
          | [] => none
          | c2 :: r2 =>
            if c2 = ',' then
              match jsonParseItems fuel r2 with
              | some (Json.arr vs, r3) => some (Json.arr (v :: vs), r3)
              | _ => none
            else if c2 = ']' then some (Json.arr [v], r2)
            else none

/-- Object members after the opening brace. -/
def jsonParseMembers : Nat → List Char → Option (Json × List Char)
  | 0, _ => none
  | fuel + 1, l =>
    match skipWs l with
    | [] => none
    | c :: r =>
      if c = cbraceC then some (Json.obj [], r)
      else if c = qc then
        match parseStringBody r with
        | none => none
        | some (k, r2) =>
          match skipWs r2 with
          | [] => none
          | c1 :: r3 =>
            if c1 = ':' then
              match jsonParseVal fuel r3 with
              | none => none
              | some (v, r4) =>
                match skipWs r4 with
                | [] => none
                | c2 :: r5 =>
                  if c2 = ',' then
                    match jsonParseMembers fuel r5 with
                    | some (Json.obj ms, r6) =>
                        some (Json.obj (insertMemberJs (String.mk k) v ms), r6)
                    | _ => none
                  else if c2 = cbraceC then some (Json.obj [(String.mk k, v)], r5)
                  else none
            else none
      else none

end

/-- `JSON.parse`: parse one value and require only whitespace after it. -/
def Json.parse (s : String) : Option Json :=
  match jsonParseVal (2 * s.length + 2) s.toList with
  | some (j, r) => if skipWs r = [] then some j else none
  | none => none

/-- `JSON.stringify` of the status string. -/
def statusToString : PhotoStatus → String
  | .idle => "idle"
  | .pending => "pending"
  | .done => "done"
  | .error => "error"
  | .uploading => "uploading"

/-- Reading a status string back. -/
def statusFromString (s : String) : Option PhotoStatus :=
  if s = "idle" then some .idle
  else if s = "pending" then some .pending
  else if s = "done" then some .done
  else if s = "error" then some .error
  else if s = "uploading" then some .uploading
  else none

/-- The members `JSON.stringify` emits for a photo entry: the four always-set
string fields, the status, then each optional field only when present. -/
def photoMembers (p : Photo) : List (String × String) :=
  [("id", p.id), ("imageUrl", p.imageUrl), ("date", p.date),
   ("message", p.message), ("status", statusToString p.status)]
  ++ (match p.generatedUrl with | some u => [("generatedUrl", u)] | none => [])
  ++ (match p.error with | some e => [("error", e)] | none => [])
  ++ (match p.localDataUrl with | some d => [("localDataUrl", d)] | none => [])

/-- The JSON value `JSON.stringify` serializes for one photo. -/
def photoToJson (p : Photo) : Json :=
  Json.obj ((photoMembers p).map (fun kv => (kv.1, Json.str kv.2)))

/-- The JSON value for the whole photo list. -/
def photosToJson (l : List Photo) : Json :=
  Json.arr (l.map photoToJson)

/-- One serialized member, `"key":"value"`. -/
def renderStrMember (k v : String) : List Char :=
  renderStr k ++ ':' :: renderStr v

/-- Comma-separated member list. -/
def renderMembersStr : List (String × String) → List Char
  | [] => []
  | [(k, v)] => renderStrMember k v
  | (k, v) :: rest => renderStrMember k v ++ ',' :: renderMembersStr rest

/-- `JSON.stringify` of one photo object. -/
def renderPhoto (p : Photo) : List Char :=
  obraceC :: (renderMembersStr (photoMembers p) ++ [cbraceC])

/-- Comma-separated photo objects. -/
def renderPhotosItems : List Photo → List Char
  | [] => []
  | [p] => renderPhoto p
  | p :: rest => renderPhoto p ++ ',' :: renderPhotosItems rest

/-- `JSON.stringify(photos)` as called by `handleShare`. -/
def renderPhotos (l : List Photo) : String :=
  String.mk ('[' :: (renderPhotosItems l ++ [']']))

/-- Read a string-valued field. -/
def jsonAsString : Option Json → Option String
  | some (Json.str s) => some s
  | _ => none

/-- Adopting one decoded JSON object as a photo entry. -/
def photoFromJson (j : Json) : Option Photo := do
  let id ← jsonAsString (j.getField "id")
  let imageUrl ← jsonAsString (j.getField "imageUrl")
  let date ← jsonAsString (j.getField "date")
  let message ← jsonAsString (j.getField "message")
  let status ← (jsonAsString (j.getField "status")).bind statusFromString
  some { id := id, imageUrl := imageUrl, date := date, message := message,
         status := status,
         generatedUrl := jsonAsString (j.getField "generatedUrl"),
         error := jsonAsString (j.getField "error"),
         localDataUrl := jsonAsString (j.getField "localDataUrl") }

/-- Adopting a decoded JSON document as the photo list. -/
def photosFromJson : Json → Option (List Photo)
  | Json.arr items => items.mapM photoFromJson
  | _ => none

lemma skipWs_cons (c : Char) (l : List Char) (h : isJsonWs c = false) :
    skipWs (c :: l) = c :: l := by
  simp [skipWs, h]

lemma jpv_succ (fuel : Nat) (l : List Char) :
    jsonParseVal (fuel + 1) l =
      match skipWs l with
      | [] => none
      | c :: rest =>
        if c = qc then
          match parseStringBody rest with
          | some (s, r) => some (Json.str (String.mk s), r)
          | none => none
        else if c = '[' then jsonParseItems fuel rest
        else if c = obraceC then jsonParseMembers fuel rest
        else if c = 't' then
          match rest with
          | 'r' :: 'u' :: 'e' :: r => some (Json.bool true, r)
          | _ => none
        else if c = 'f' then
          match rest with
          | 'a' :: 'l' :: 's' :: 'e' :: r => some (Json.bool false, r)
          | _ => none
        else if c = 'n' then
          match rest with
          | 'u' :: 'l' :: 'l' :: r => some (Json.null, r)
          | _ => none
        else if c = '-' then
          match takeDigits rest with
          | ([], _) => none
          | (ds, r) => some (Json.num (-(digitsToNat ds : Int)), r)
        else if c.isDigit then
          match takeDigits (c :: rest) with
          | (ds, r) => some (Json.num (digitsToNat ds), r)
        else none := by
  rw [jsonParseVal.eq_def]

lemma jpi_succ (fuel : Nat) (l : List Char) :
    jsonParseItems (fuel + 1) l =
      match skipWs l with
      | [] => none
      | c :: r =>
        if c = ']' then some (Json.arr [], r)
        else
          match jsonParseVal fuel (c :: r) with
          | none => none
          | some (v, r1) =>
            match skipWs r1 with
            | [] => none
            | c2 :: r2 =>
              if c2 = ',' then
                match jsonParseItems fuel r2 with
                | some (Json.arr vs, r3) => some (Json.arr (v :: vs), r3)
                | _ => none
              else if c2 = ']' then some (Json.arr [v], r2)
              else none := by
  rw [jsonParseItems.eq_def]

lemma jpm_succ (fuel : Nat) (l : List Char) :
    jsonParseMembers (fuel + 1) l =
      match skipWs l with
      | [] => none
      | c :: r =>
        if c = cbraceC then some (Json.obj [], r)
        else if c = qc then
          match parseStringBody r with
          | none => none
          | some (k, r2) =>
            match skipWs r2 with
            | [] => none
            | c1 :: r3 =>
              if c1 = ':' then
                match jsonParseVal fuel r3 with
                | none => none
                | some (v, r4) =>
                  match skipWs r4 with
                  | [] => none
                  | c2 :: r5 =>
                    if c2 = ',' then
                      match jsonParseMembers fuel r5 with
                      | some (Json.obj ms, r6) =>
                          some (Json.obj (insertMemberJs (String.mk k) v ms), r6)
                      | _ => none
                    else if c2 = cbraceC then some (Json.obj [(String.mk k, v)], r5)
                    else none
              else none
        else none := by
  rw [jsonParseMembers.eq_def]

lemma jpv_str (s : String) (rest : List Char) (fuel : Nat) :
    jsonParseVal (fuel + 1) (renderStr s ++ rest) = some (Json.str s, rest) := by
  rw [jpv_succ]
  have hq : isJsonWs qc = false := by decide
  simp only [renderStr, List.cons_append, skipWs_cons qc _ hq, List.append_assoc,
    List.cons_append, List.nil_append]
  have hrt : parseStringBody (escapeList s.data ++ qc :: rest) = some (s.data, rest) :=
    parseStringBody_escape s.toList rest
  simp [hrt]

lemma lookupMember_map_str (ms : List (String × String)) (key : String)
    (h : ∀ kv ∈ ms, kv.1 ≠ key) :
    lookupMember (ms.map (fun kv => (kv.1, Json.str kv.2))) key = none := by
  induction ms with
  | nil => rfl
  | cons a rest ih =>
      simp only [List.map_cons, lookupMember]
      rw [if_neg (h a (by simp))]
      exact ih (fun kv hkv => h kv (by simp [hkv]))

lemma jpm_render (ms : List (String × String)) :
    ∀ (k v : String) (rest : List Char) (fuel : Nat),
    List.Pairwise (fun a b : String × String => a.1 ≠ b.1) ((k, v) :: ms) →
    jsonParseMembers (2 * ms.length + fuel + 2)
        (renderMembersStr ((k, v) :: ms) ++ (cbraceC :: rest))
      = some (Json.obj (((k, v) :: ms).map (fun kv => (kv.1, Json.str kv.2))), rest) := by
  induction ms with
  | nil =>
      intro k v rest fuel _hnd
      rw [show 2 * ([] : List (String × String)).length + fuel + 2 = (fuel + 1) + 1
        from by simp]
      rw [jpm_succ]
      simp only [renderMembersStr, renderStrMember, renderStr, List.cons_append,
        List.append_assoc, List.nil_append]
      rw [skipWs_cons qc _ (by decide)]
      have hk : parseStringBody (escapeList k.data
          ++ qc :: (':' :: (qc :: (escapeList v.data ++ (qc :: (cbraceC :: rest))))))
          = some (k.data, ':' :: (qc :: (escapeList v.data ++ (qc :: (cbraceC :: rest))))) := by
        have := parseStringBody_escape k.toList
          (':' :: (qc :: (escapeList v.data ++ (qc :: (cbraceC :: rest)))))
        simpa using this
      have hv : jsonParseVal (fuel + 1)
          (qc :: (escapeList v.data ++ (qc :: (cbraceC :: rest))))
          = some (Json.str v, cbraceC :: rest) := by
        have := jpv_str v (cbraceC :: rest) fuel
        simpa [renderStr] using this
      simp [hk, hv, skipWs_cons, show (¬qc = cbraceC) from by decide,
        show isJsonWs ':' = false from by decide,
        show isJsonWs cbraceC = false from by decide,
        show (¬cbraceC = ',') from by decide]
  | cons a ms ih =>
      intro k v rest fuel hnd
      obtain ⟨a1, a2⟩ := a
      rw [show 2 * ((a1, a2) :: ms).length + fuel + 2
          = ((2 * ms.length + fuel + 3)) + 1 from by simp; omega]
      rw [jpm_succ]
      have hrm : renderMembersStr ((k, v) :: (a1, a2) :: ms)
          = renderStrMember k v ++ ',' :: renderMembersStr ((a1, a2) :: ms) := rfl
      rw [hrm]
      simp only [renderStrMember, renderStr, List.cons_append,
        List.append_assoc, List.nil_append]
      rw [skipWs_cons qc _ (by decide)]
      have hk : parseStringBody (escapeList k.data
          ++ qc :: (':' :: (qc :: (escapeList v.data
            ++ (qc :: (',' :: (renderMembersStr ((a1, a2) :: ms) ++ (cbraceC :: rest))))))))
          = some (k.data, ':' :: (qc :: (escapeList v.data
            ++ (qc :: (',' :: (renderMembersStr ((a1, a2) :: ms) ++ (cbraceC :: rest))))))) := by
        have := parseStringBody_escape k.toList
          (':' :: (qc :: (escapeList v.data
            ++ (qc :: (',' :: (renderMembersStr ((a1, a2) :: ms) ++ (cbraceC :: rest)))))))
        simpa using this
      have hv : jsonParseVal (2 * ms.length + fuel + 3)
          (qc :: (escapeList v.data
            ++ (qc :: (',' :: (renderMembersStr ((a1, a2) :: ms) ++ (cbraceC :: rest))))))
          = some (Json.str v,
              ',' :: (renderMembersStr ((a1, a2) :: ms) ++ (cbraceC :: rest))) := by
        have := jpv_str v
          (',' :: (renderMembersStr ((a1, a2) :: ms) ++ (cbraceC :: rest)))
          (2 * ms.length + fuel + 2)
        simpa [renderStr] using this
      have hrec : jsonParseMembers (2 * ms.length + fuel + 3)
          (renderMembersStr ((a1, a2) :: ms) ++ (cbraceC :: rest))
          = some (Json.obj (((a1, a2) :: ms).map (fun kv => (kv.1, Json.str kv.2))), rest) := by
        have := ih a1 a2 rest (fuel + 1) hnd.tail
        rw [show 2 * ms.length + (fuel + 1) + 2 = 2 * ms.length + fuel + 3
          from by omega] at this
        exact this
      have hne : ∀ kv ∈ (a1, a2) :: ms, (kv : String × String).1 ≠ k := by
        intro kv hkv
        exact fun he => (List.pairwise_cons.mp hnd).1 kv hkv he.symm
      have hlook : lookupMember
          ((a1, Json.str a2) :: List.map (fun kv => (kv.1, Json.str kv.2)) ms) k = none := by
        simpa using lookupMember_map_str ((a1, a2) :: ms) k hne
      have hins : insertMemberJs k (Json.str v)
          ((a1, Json.str a2) :: List.map (fun kv => (kv.1, Json.str kv.2)) ms)
          = (k, Json.str v) :: (a1, Json.str a2)
              :: List.map (fun kv => (kv.1, Json.str kv.2)) ms := by
        simp [insertMemberJs, hlook]
      simp [hk, hv, hrec, hins, skipWs_cons, show (¬qc = cbraceC) from by decide,
        show isJsonWs ':' = false from by decide,
        show isJsonWs ',' = false from by decide]

lemma jpv_obj_members (k v : String) (ms : List (String × String))
    (rest : List Char) (fuel : Nat)
    (hnd : List.Pairwise (fun a b : String × String => a.1 ≠ b.1) ((k, v) :: ms)) :
    jsonParseVal (2 * ms.length + fuel + 3)
        ((obraceC :: (renderMembersStr ((k, v) :: ms) ++ [cbraceC])) ++ rest)
      = some (Json.obj (((k, v) :: ms).map fun kv => (kv.1, Json.str kv.2)), rest) := by
  rw [show 2 * ms.length + fuel + 3 = (2 * ms.length + fuel + 2) + 1 from by omega]
  rw [jpv_succ]
  simp only [List.cons_append, List.append_assoc, List.singleton_append]
  rw [skipWs_cons obraceC _ (by decide)]
  have hm := jpm_render ms k v rest fuel hnd
  simp [show (¬obraceC = qc) from by decide, show (¬obraceC = '[') from by decide,
    hm]

lemma photoMembers_nodup (p : Photo) :
    List.Pairwise (fun a b : String × String => a.1 ≠ b.1) (photoMembers p) := by
  rcases hg : p.generatedUrl with _ | u <;> rcases he : p.error with _ | e <;>
    rcases hl : p.localDataUrl with _ | d <;>
      simp [photoMembers, hg, he, hl, List.pairwise_cons]

lemma jpv_photoObj (p : Photo) (rest : List Char) (fuel : Nat) :
    jsonParseVal (2 * (photoMembers p).length + fuel + 1) (renderPhoto p ++ rest)
      = some (photoToJson p, rest) := by
  have hnd := photoMembers_nodup p
  have hmm : photoMembers p = ("id", p.id) :: (photoMembers p).tail := rfl
  rw [photoToJson, renderPhoto, hmm]
  rw [show 2 * (("id", p.id) :: (photoMembers p).tail).length + fuel + 1
      = 2 * (photoMembers p).tail.length + fuel + 3 from by
        simp [List.length_cons]; omega]
  exact jpv_obj_members "id" p.id (photoMembers p).tail rest fuel (hmm ▸ hnd)

/-- Fuel consumed by parsing the rendered photo items. -/
def photosItemsFuel : List Photo → Nat
  | [] => 0
  | p :: rest => 2 * (photoMembers p).length + 2 + photosItemsFuel rest

lemma jpi_photos (l : List Photo) : ∀ (rest : List Char) (fuel : Nat),
    jsonParseItems (photosItemsFuel l + fuel + 1) (renderPhotosItems l ++ (']' :: rest))
      = some (Json.arr (l.map photoToJson), rest) := by
  induction l with
  | nil =>
      intro rest fuel
      rw [show photosItemsFuel [] + fuel + 1 = fuel + 1 from by
        simp [photosItemsFuel]]
      rw [jpi_succ]
      simp only [renderPhotosItems, List.nil_append]
      rw [skipWs_cons ']' _ (by decide)]
      simp
  | cons p l ih =>
      intro rest fuel
      cases l with
      | nil =>
          rw [show photosItemsFuel [p] + fuel + 1
              = (2 * (photoMembers p).length + fuel + 2) + 1 from by
                simp [photosItemsFuel]; omega]
          rw [jpi_succ]
          have hval : jsonParseVal (2 * (photoMembers p).length + fuel + 2)
              (renderPhoto p ++ (']' :: rest))
              = some (photoToJson p, ']' :: rest) := by
            rw [show 2 * (photoMembers p).length + fuel + 2
                = 2 * (photoMembers p).length + (fuel + 1) + 1 from by omega]
            exact jpv_photoObj p (']' :: rest) (fuel + 1)
          have hro : renderPhoto p ++ (']' :: rest)
              = obraceC :: ((renderMembersStr (photoMembers p) ++ [cbraceC])
                  ++ (']' :: rest)) := by
            simp [renderPhoto]
          rw [hro] at hval
          simp only [List.cons_append, List.append_assoc, List.singleton_append,
            List.nil_append] at hval
          simp only [renderPhotosItems, renderPhoto, List.cons_append,
            List.append_assoc, List.singleton_append, List.nil_append]
          rw [skipWs_cons obraceC _ (by decide)]
          simp [hval, skipWs_cons, show isJsonWs (']' : Char) = false from by decide,
            show (¬obraceC = ']') from by decide,
            show (¬(']' : Char) = ',') from by decide]
      | cons p2 l2 =>
          rw [show photosItemsFuel (p :: p2 :: l2) + fuel + 1
              = (2 * (photoMembers p).length + photosItemsFuel (p2 :: l2) + fuel + 2) + 1
              from by simp [photosItemsFuel]; omega]
          rw [jpi_succ]
          have hval : jsonParseVal
              (2 * (photoMembers p).length + photosItemsFuel (p2 :: l2) + fuel + 2)
              (renderPhoto p ++ (',' :: (renderPhotosItems (p2 :: l2) ++ (']' :: rest))))
              = some (photoToJson p,
                  ',' :: (renderPhotosItems (p2 :: l2) ++ (']' :: rest))) := by
            rw [show 2 * (photoMembers p).length + photosItemsFuel (p2 :: l2) + fuel + 2
                = 2 * (photoMembers p).length + (photosItemsFuel (p2 :: l2) + fuel + 1) + 1
                from by omega]
            exact jpv_photoObj p _ _
          have hro : renderPhoto p ++ (',' :: (renderPhotosItems (p2 :: l2) ++ (']' :: rest)))
              = obraceC :: ((renderMembersStr (photoMembers p) ++ [cbraceC])
                  ++ (',' :: (renderPhotosItems (p2 :: l2) ++ (']' :: rest)))) := by
            simp [renderPhoto]
          rw [hro] at hval
          have hrec : jsonParseItems
              (2 * (photoMembers p).length + photosItemsFuel (p2 :: l2) + fuel + 2)
              (renderPhotosItems (p2 :: l2) ++ (']' :: rest))
              = some (Json.arr ((p2 :: l2).map photoToJson), rest) := by
            have := ih rest (2 * (photoMembers p).length + fuel + 1)
            rw [show photosItemsFuel (p2 :: l2) + (2 * (photoMembers p).length + fuel + 1) + 1
                = 2 * (photoMembers p).length + photosItemsFuel (p2 :: l2) + fuel + 2
                from by omega] at this
            exact this
          have hri : renderPhotosItems (p :: p2 :: l2)
              = renderPhoto p ++ (',' :: renderPhotosItems (p2 :: l2)) := rfl
          rw [hri]
          simp only [List.cons_append, List.append_assoc, List.singleton_append,
            List.nil_append] at hval hrec
          simp only [renderPhoto, List.cons_append, List.append_assoc,
            List.singleton_append, List.nil_append]
          rw [skipWs_cons obraceC _ (by decide)]
          simp [hval, hrec, skipWs_cons,
            show isJsonWs (',' : Char) = false from by decide,
            show (¬obraceC = ']') from by decide]

lemma renderStr_len (s : String) : 2 ≤ (renderStr s).length := by
  simp [renderStr]

lemma renderStrMember_len (k v : String) : 5 ≤ (renderStrMember k v).length := by
  have hk := renderStr_len k
  have hv := renderStr_len v
  simp [renderStrMember]
  omega

lemma renderMembersStr_len (ms : List (String × String)) (k v : String) :
    6 * ms.length + 5 ≤ (renderMembersStr ((k, v) :: ms)).length := by
  induction ms generalizing k v with
  | nil =>
      simpa [renderMembersStr] using renderStrMember_len k v
  | cons a ms ih =>
      obtain ⟨a1, a2⟩ := a
      have h1 := renderStrMember_len k v
      have h2 := ih a1 a2
      have hr : renderMembersStr ((k, v) :: (a1, a2) :: ms)
          = renderStrMember k v ++ ',' :: renderMembersStr ((a1, a2) :: ms) := rfl
      rw [hr]
      simp only [List.length_append, List.length_cons, List.length_map]
      omega

lemma photoMembers_len (p : Photo) : 5 ≤ (photoMembers p).length := by
  rcases hg : p.generatedUrl with _ | u <;> rcases he : p.error with _ | e <;>
    rcases hl : p.localDataUrl with _ | d <;>
      simp [photoMembers, hg, he, hl]

lemma renderPhoto_len (p : Photo) :
    6 * (photoMembers p).length + 1 ≤ (renderPhoto p).length := by
  have hmm : photoMembers p = ("id", p.id) :: (photoMembers p).tail := rfl
  have h := renderMembersStr_len (photoMembers p).tail "id" p.id
  rw [← hmm] at h
  have hlen : (photoMembers p).length = (photoMembers p).tail.length + 1 := by
    rw [hmm]
    simp
  simp only [renderPhoto, List.length_cons, List.length_append]
  omega

lemma photosItemsFuel_le (l : List Photo) :
    photosItemsFuel l ≤ 2 * (renderPhotosItems l).length := by
  induction l with
  | nil => simp [photosItemsFuel, renderPhotosItems]
  | cons p l ih =>
      have hp := renderPhoto_len p
      cases l with
      | nil =>
          simp only [photosItemsFuel, renderPhotosItems]
          omega
      | cons p2 l2 =>
          have hr : renderPhotosItems (p :: p2 :: l2)
              = renderPhoto p ++ (',' :: renderPhotosItems (p2 :: l2)) := rfl
          rw [photosItemsFuel, hr]
          simp only [List.length_append, List.length_cons]
          omega

/-- Parsing back the exact text `JSON.stringify` produced for a photo list
recovers the serialized JSON value. -/
lemma parse_renderPhotos (l : List Photo) :
    Json.parse (renderPhotos l) = some (photosToJson l) := by
  have hbound := photosItemsFuel_le l
  unfold Json.parse renderPhotos
  have hlen : (String.mk ('[' :: (renderPhotosItems l ++ [']']))).length
      = (renderPhotosItems l).length + 2 := by
    simp [String.length]
  have htl : (String.mk ('[' :: (renderPhotosItems l ++ [']']))).toList
      = '[' :: (renderPhotosItems l ++ [']']) := rfl
  rw [hlen, htl]
  have hval : jsonParseVal (2 * ((renderPhotosItems l).length + 2) + 2)
      ('[' :: (renderPhotosItems l ++ [']']))
      = some (photosToJson l, []) := by
    rw [show 2 * ((renderPhotosItems l).length + 2) + 2
        = (2 * (renderPhotosItems l).length + 5) + 1 from by omega]
    rw [jpv_succ]
    rw [skipWs_cons '[' _ (by decide)]
    have hitems : jsonParseItems (2 * (renderPhotosItems l).length + 5)
        (renderPhotosItems l ++ (']' :: ([] : List Char)))
        = some (Json.arr (l.map photoToJson), []) := by
      have := jpi_photos l []
        (2 * (renderPhotosItems l).length + 4 - photosItemsFuel l)
      rw [show photosItemsFuel l
          + (2 * (renderPhotosItems l).length + 4 - photosItemsFuel l) + 1
          = 2 * (renderPhotosItems l).length + 5 from by omega] at this
      exact this
    simp only [List.append_nil] at hitems
    simp [show (¬('[' : Char) = qc) from by decide, hitems, photosToJson]
  rw [hval]
  simp [skipWs]

lemma statusFromString_toString (s : PhotoStatus) :
    statusFromString (statusToString s) = some s := by
  cases s <;> rfl

lemma photoFromJson_photoToJson (p : Photo) :
    photoFromJson (photoToJson p) = some p := by
  obtain ⟨pid, purl, pdate, pmsg, pstatus, pg, pe, pl⟩ := p
  rcases pg with _ | u <;> rcases pe with _ | e1 <;> rcases pl with _ | d <;>
    simp [photoFromJson, photoToJson, photoMembers, Json.getField, lookupMember,
      jsonAsString, statusFromString_toString]

lemma photosFromJson_photosToJson (l : List Photo) :
    photosFromJson (photosToJson l) = some l := by
  unfold photosFromJson photosToJson
  induction l with
  | nil => rfl
  | cons p l ih =>
      simp only [List.map_cons, List.mapM_cons, photoFromJson_photoToJson]
      simp only [List.mapM_cons] at ih ⊢
      rw [show (List.mapM photoFromJson (List.map photoToJson l))
          = some l from by simpa using ih]
      rfl

/-- The base64 alphabet used by `btoa` / `atob`. -/
def b64Alphabet : List Char :=
  "ABCDEFGHIJKLMNOPQRSTUVWXYZabcdefghijklmnopqrstuvwxyz0123456789+/".toList

/-- Alphabet character of a sextet. -/
def sextetChar (n : Nat) : Char := b64Alphabet.getD n 'A'

/-- Sextet of an alphabet character. -/
def charSextet (c : Char) : Option Nat := b64Alphabet.indexOf? c

/-- `btoa` on a byte list: three bytes become four alphabet characters, with
`=` padding closing a one- or two-byte tail. -/
def b64encodeBytes : List Nat → List Char
  | [] => []
  | [a] => [sextetChar (a / 4), sextetChar (a % 4 * 16), '=', '=']
  | [a, b] => [sextetChar (a / 4), sextetChar (a % 4 * 16 + b / 16),
      sextetChar (b % 16 * 4), '=']
  | a :: b :: c :: rest =>
      sextetChar (a / 4) :: sextetChar (a % 4 * 16 + b / 16)
        :: sextetChar (b % 16 * 4 + c / 64) :: sextetChar (c % 64)
        :: b64encodeBytes rest

/-- `atob` back to a byte list; fails on anything outside the alphabet, on a
malformed length, or on padding before the end. -/
def b64decodeBytes : List Char → Option (List Nat)
  | [] => some []
  | c1 :: c2 :: c3 :: c4 :: rest =>
      if c3 = '=' ∧ c4 = '=' ∧ rest = [] then do
        let s1 ← charSextet c1
        let s2 ← charSextet c2
        some [s1 * 4 + s2 / 16]
      else if c4 = '=' ∧ rest = [] then do
        let s1 ← charSextet c1
        let s2 ← charSextet c2
        let s3 ← charSextet c3
        some [s1 * 4 + s2 / 16, s2 % 16 * 16 + s3 / 4]
      else do
        let s1 ← charSextet c1
        let s2 ← charSextet c2
        let s3 ← charSextet c3
        let s4 ← charSextet c4
        let tail ← b64decodeBytes rest
        some ((s1 * 4 + s2 / 16) :: (s2 % 16 * 16 + s3 / 4) :: (s3 % 4 * 64 + s4) :: tail)
  | _ => none

lemma charSextet_sextetChar : ∀ n, n < 64 → charSextet (sextetChar n) = some n := by
  decide

lemma sextetChar_ne_pad : ∀ n, n < 64 → ¬sextetChar n = '=' := by
  decide

theorem b64_roundtrip : (bytes : List Nat) → (∀ b ∈ bytes, b < 256) →
    b64decodeBytes (b64encodeBytes bytes) = some bytes
  | [], _ => rfl
  | [a], h => by
      have h1 : a < 256 := h a (by simp)
      have e1 := charSextet_sextetChar (a / 4) (by omega)
      have e2 := charSextet_sextetChar (a % 4 * 16) (by omega)
      simp [b64encodeBytes, b64decodeBytes, e1, e2]
      omega
  | [a, b], h => by
      have ha : a < 256 := h a (by simp)
      have hb : b < 256 := h b (by simp)
      have e1 := charSextet_sextetChar (a / 4) (by omega)
      have e2 := charSextet_sextetChar (a % 4 * 16 + b / 16) (by omega)
      have e3 := charSextet_sextetChar (b % 16 * 4) (by omega)
      have n3 := sextetChar_ne_pad (b % 16 * 4) (by omega)
      simp [b64encodeBytes, b64decodeBytes, e1, e2, e3, n3]
      constructor <;> omega
  | a :: b :: c :: rest, h => by
      have ha : a < 256 := h a (by simp)
      have hb : b < 256 := h b (by simp)
      have hc : c < 256 := h c (by simp)
      have ih := b64_roundtrip rest (fun x hx => h x (by simp [hx]))
      have e1 := charSextet_sextetChar (a / 4) (by omega)
      have e2 := charSextet_sextetChar (a % 4 * 16 + b / 16) (by omega)
      have e3 := charSextet_sextetChar (b % 16 * 4 + c / 64) (by omega)
      have e4 := charSextet_sextetChar (c % 64) (by omega)
      have n3 := sextetChar_ne_pad (b % 16 * 4 + c / 64) (by omega)
      have n4 := sextetChar_ne_pad (c % 64) (by omega)
      simp [b64encodeBytes, b64decodeBytes, e1, e2, e3, e4, n3, n4, ih]
      refine ⟨by omega, by omega, by omega⟩
termination_by bytes _ => bytes.length

lemma char_toNat_ofNat (n : Nat) (h : Nat.isValidChar n) :
    (Char.ofNat n).toNat = n := by
  unfold Char.ofNat
  rw [dif_pos h]
  rfl

lemma byte_isValidChar (b : Nat) (h : b < 256) : Nat.isValidChar b :=
  Or.inl (by omega)

/-- `String.fromCharCode` over a byte list, i.e.
`Array.from(compressed, byte => String.fromCharCode(byte)).join('')`. -/
def bytesToLatin1 (bs : List Nat) : List Char := bs.map Char.ofNat

/-- `charCodeAt` over a binary string, i.e.
`Uint8Array.from(s, c => c.charCodeAt(0))`. -/
def latin1ToBytes (cs : List Char) : List Nat := cs.map Char.toNat

/-- `btoa`: base64 of a binary string; throws when a character exceeds 255. -/
def btoaModel (cs : List Char) : Option (List Char) :=
  if cs.all (fun c => c.toNat < 256) then some (b64encodeBytes (latin1ToBytes cs))
  else none

/-- `atob`: base64 decode back to a binary string. -/
def atobModel (cs : List Char) : Option (List Char) :=
  (b64decodeBytes cs).map bytesToLatin1

lemma latin1_roundtrip (bs : List Nat) (h : ∀ b ∈ bs, b < 256) :
    latin1ToBytes (bytesToLatin1 bs) = bs := by
  unfold latin1ToBytes bytesToLatin1
  rw [List.map_map]
  refine List.map_congr_left ?_ |>.trans (List.map_id bs)
  intro b hb
  exact char_toNat_ofNat b (byte_isValidChar b (h b hb))

/-- The encoding stage of `handleShare`, minus the ephemeral-field strip:
`JSON.stringify`, deflate (the external pako collaborator, a parameter),
marshal the bytes into a binary string, `btoa`. -/
def encodeShare (deflate : String → List Nat) (l : List Photo) : Option String :=
  (btoaModel (bytesToLatin1 (deflate (renderPhotos l)))).map String.mk

/-- The `data` path of `loadTimeline`: `atob`, bytes via `charCodeAt`, inflate
(external pako collaborator, a parameter), `JSON.parse`, adopt the result as
the photo list. -/
def decodeShare (inflate : List Nat → Option String) (s : String) :
    Option (List Photo) := do
  let bin ← atobModel s.toList
  let txt ← inflate (latin1ToBytes bin)
  let j ← Json.parse txt
  photosFromJson j

/-- The strip `({ localDataUrl, ...rest }) => rest` applied by `handleShare`
before encoding. -/
def stripLocal (p : Photo) : Photo := { p with localDataUrl := none }

/-- `handleShare`: strip the ephemeral preview fields, then encode. -/
def handleShare (deflate : String → List Nat) (l : List Photo) : Option String :=
  encodeShare deflate (l.map stripLocal)

lemma encodeShare_eq (deflate : String → List Nat)
    (hbytes : ∀ s b, b ∈ deflate s → b < 256) (l : List Photo) :
    encodeShare deflate l
      = some (String.mk (b64encodeBytes (deflate (renderPhotos l)))) := by
  unfold encodeShare btoaModel
  rw [if_pos]
  · rw [latin1_roundtrip _ (fun b hb => hbytes _ b hb)]
    rfl
  · refine List.all_eq_true.mpr ?_
    intro c hc
    obtain ⟨b, hb, hcb⟩ := List.mem_map.mp hc
    have := char_toNat_ofNat b (byte_isValidChar b (hbytes _ b hb))
    subst hcb
    simp only [this]
    exact decide_eq_true (hbytes _ b hb)

/-- C3: with the external deflate / inflate pair satisfying its documented
contract (byte output, exact inverse), decoding the share-link encoding by the
inverse pipeline yields the original list again, for every photo list
including the empty one; and the full `handleShare`, which first strips the
ephemeral `localDataUrl`, round-trips to the stripped list. -/
theorem share_link_roundtrip (deflate : String → List Nat)
    (inflate : List Nat → Option String)
    (hbytes : ∀ s b, b ∈ deflate s → b < 256)
    (hinv : ∀ s, inflate (deflate s) = some s) :
    (∀ l : List Photo, ∃ enc, encodeShare deflate l = some enc
        ∧ decodeShare inflate enc = some l)
    ∧ (∀ l : List Photo, ∃ enc, handleShare deflate l = some enc
        ∧ decodeShare inflate enc = some (l.map stripLocal))
    ∧ (∃ enc, encodeShare deflate [] = some enc
        ∧ decodeShare inflate enc = some []) := by
  have hmain : ∀ l : List Photo, ∃ enc, encodeShare deflate l = some enc
      ∧ decodeShare inflate enc = some l := by
    intro l
    refine ⟨String.mk (b64encodeBytes (deflate (renderPhotos l))),
      encodeShare_eq deflate hbytes l, ?_⟩
    unfold decodeShare atobModel
    have htl : (String.mk (b64encodeBytes (deflate (renderPhotos l)))).toList
        = b64encodeBytes (deflate (renderPhotos l)) := rfl
    rw [htl, b64_roundtrip (deflate (renderPhotos l)) (fun b hb => hbytes _ b hb)]
    simp [latin1_roundtrip _ (fun b hb => hbytes (renderPhotos l) b hb), hinv,
      parse_renderPhotos, photosFromJson_photosToJson]
  exact ⟨hmain, fun l => hmain (l.map stripLocal), hmain []⟩

lemma char_toNat_lt (c : Char) : c.toNat < 1114112 := by
  rcases c.valid with h | ⟨h1, h2⟩
  · exact Nat.lt_trans h (by decide)
  · exact h2

/-- Three base-256 digits of one character, for the witness codec. -/
def charToBytes (c : Char) : List Nat :=
  [c.toNat / 65536, c.toNat / 256 % 256, c.toNat % 256]

/-- Witness serialization of a character list into bytes. -/
def strToBytes : List Char → List Nat
  | [] => []
  | c :: rest => charToBytes c ++ strToBytes rest

/-- A concrete injective byte serialization of strings, standing in for the
external deflate in witnesses. -/
def deflateW (s : String) : List Nat := strToBytes s.toList

/-- Witness deserialization of three-digit groups back to characters. -/
def bytesToStr : List Nat → Option (List Char)
  | [] => some []
  | a :: b :: c :: rest =>
      if Nat.isValidChar (a * 65536 + b * 256 + c) then
        match bytesToStr rest with
        | some cs => some (Char.ofNat (a * 65536 + b * 256 + c) :: cs)
        | none => none
      else none
  | _ => none

/-- The inverse of `deflateW`, standing in for the external inflate. -/
def inflateW (bs : List Nat) : Option String := (bytesToStr bs).map String.mk

lemma bytesToStr_strToBytes : ∀ cs : List Char, bytesToStr (strToBytes cs) = some cs
  | [] => rfl
  | c :: cs => by
      have ih := bytesToStr_strToBytes cs
      have hn : c.toNat / 65536 * 65536 + c.toNat / 256 % 256 * 256 + c.toNat % 256
          = c.toNat := by omega
      simp only [strToBytes, charToBytes, List.cons_append, List.nil_append]
      simp only [bytesToStr, hn]
      rw [if_pos (show Nat.isValidChar c.toNat from c.valid), ih]
      simp

lemma deflateW_bytes : ∀ (s : String) (b : Nat), b ∈ deflateW s → b < 256 := by
  suffices h : ∀ (cs : List Char) (b : Nat), b ∈ strToBytes cs → b < 256 by
    intro s b hb
    exact h s.toList b hb
  intro cs
  induction cs with
  | nil => simp [strToBytes]
  | cons c cs ih =>
      intro b hb
      have hc := char_toNat_lt c
      simp only [strToBytes, charToBytes, List.cons_append, List.nil_append,
        List.mem_cons] at hb
      rcases hb with h1 | h1 | h1 | h1
      · subst h1; omega
      · subst h1; omega
      · subst h1; omega
      · exact ih b h1

lemma inflateW_deflateW (s : String) : inflateW (deflateW s) = some s := by
  unfold inflateW deflateW
  rw [bytesToStr_strToBytes s.toList]
  rfl

/-- Witness for C3: the concrete deflate / inflate pair `deflateW` /
`inflateW` satisfies the contract, and the pipeline round-trips both the
one-entry list `[photoA]` and the empty list. -/
theorem share_link_roundtrip_witness :
    (∀ s b, b ∈ deflateW s → b < 256)
    ∧ (∀ s, inflateW (deflateW s) = some s)
    ∧ (∃ enc, encodeShare deflateW [photoA] = some enc
        ∧ decodeShare inflateW enc = some [photoA])
    ∧ (∃ enc, encodeShare deflateW [] = some enc
        ∧ decodeShare inflateW enc = some []) :=
  ⟨deflateW_bytes, inflateW_deflateW,
   (share_link_roundtrip deflateW inflateW deflateW_bytes inflateW_deflateW).1 [photoA],
   (share_link_roundtrip deflateW inflateW deflateW_bytes inflateW_deflateW).2.2⟩

/-- `String.prototype.startsWith`. -/
def strStartsWith (s pre : String) : Bool :=
  pre.toList.isPrefixOf s.toList

/-- A file of a selected batch: its MIME type and its text content. -/
structure UFile where
  ftype : String
  text : String
deriving DecidableEq, Repr

/-- The image files of a selection: `file.type.startsWith('image/')`. -/
def imageFilesOf (files : List UFile) : List UFile :=
  files.filter (fun f => strStartsWith f.ftype "image/")

/-- The JSON files of a selection: `file.type === 'application/json'`. -/
def jsonFilesOf (files : List UFile) : List UFile :=
  files.filter (fun f => f.ftype == "application/json")

/-- Loading a timeline from one JSON file: `JSON.parse` then the validated
import; a parse throw is caught like any other import failure. -/
def jsonLoadResult (f : UFile) : Except String (List Json) :=
  match Json.parse f.text with
  | none => Except.error "Error reading or parsing JSON file."
  | some j => importTimeline j

/-- The outcome of `handleFileSelect` on a batch: the replacement timeline if
one was loaded, and the image files processed as uploads. Mirroring the
source, only the first JSON file is attempted (`jsonFiles[0]`), and image
files are processed exactly when `loadedTimeline` stayed false. -/
def handleFileSelectModel (files : List UFile) :
    Option (List Json) × List UFile :=
  let loaded :=
    match jsonFilesOf files with
    | [] => none
    | f :: _ => (jsonLoadResult f).toOption
  match loaded with
  | some ps => (some ps, [])
  | none => (none, imageFilesOf files)

/-- A JSON file that fails to parse. -/
def badJsonFile : UFile := { ftype := "application/json", text := "nonsense" }

/-- A JSON timeline file that parses and validates: it carries the serialized
form of `[photoA]`. -/
def goodJsonFile : UFile :=
  { ftype := "application/json", text := renderPhotos [photoA] }

/-- A PNG image file. -/
def pngFile : UFile := { ftype := "image/png", text := "PNGDATA" }

lemma jsonLoadResult_good : jsonLoadResult goodJsonFile
    = Except.ok [photoToJson photoA] := by
  unfold jsonLoadResult goodJsonFile
  rw [parse_renderPhotos [photoA]]
  rfl

/-- Counterexample for C6: the batch `[badJsonFile, goodJsonFile, pngFile]`
contains a JSON timeline file that parses and validates (`goodJsonFile`), yet
no timeline is loaded and the PNG is processed — the source only ever attempts
`jsonFiles[0]`. -/
theorem json_precedence_counterexample :
    (jsonLoadResult goodJsonFile).isOk = true
    ∧ pngFile.ftype = "image/png"
    ∧ handleFileSelectModel [badJsonFile, goodJsonFile, pngFile]
        = (none, [pngFile]) := by
  refine ⟨?_, rfl, rfl⟩
  rw [jsonLoadResult_good]
  rfl

/-- C6 (amended): only the first JSON file of the batch is ever attempted.
When there is no JSON file, the image files are processed; when the first JSON
file loads, its timeline replaces the list and every image file is ignored;
when the first JSON file fails — even if a later JSON file would have
succeeded — the image files are processed. -/
theorem json_precedence_first_only (files : List UFile) (f : UFile)
    (rest : List UFile) :
    (jsonFilesOf files = [] →
        handleFileSelectModel files = (none, imageFilesOf files))
    ∧ (jsonFilesOf files = f :: rest →
        (∀ ps, jsonLoadResult f = Except.ok ps →
            handleFileSelectModel files = (some ps, []))
        ∧ (∀ e, jsonLoadResult f = Except.error e →
            handleFileSelectModel files = (none, imageFilesOf files))) := by
  constructor
  · intro h
    simp [handleFileSelectModel, h]
  · intro h
    constructor
    · intro ps hps
      simp [handleFileSelectModel, h, hps, Except.toOption]
    · intro e he
      simp [handleFileSelectModel, h, he, Except.toOption]

/-- Witness for C6 (amended): in the batch `[goodJsonFile, pngFile]` the first
(and only) JSON file loads, so the timeline replaces the list and the PNG is
ignored. -/
theorem json_precedence_first_only_witness :
    jsonFilesOf [goodJsonFile, pngFile] = [goodJsonFile]
    ∧ jsonLoadResult goodJsonFile = Except.ok [photoToJson photoA]
    ∧ handleFileSelectModel [goodJsonFile, pngFile]
        = (some [photoToJson photoA], []) :=
  ⟨rfl, jsonLoadResult_good,
   ((json_precedence_first_only [goodJsonFile, pngFile] goodJsonFile []).2
      rfl).1 [photoToJson photoA] jsonLoadResult_good⟩

end Anniversary
